import Mathlib

/-!
Verification of the typst grid/table layout engine
(`crates/typst/src/layout/grid/layout.rs`).

The Rust code is shallowly embedded: pure functions become Lean functions,
stateful code becomes explicit state passing, `usize` arithmetic uses `ℕ`
with explicit checks against `usizeMax` where the source uses checked
operations, absolute lengths (`Abs`, an `f64` number of points) are
modelled as exact rationals `ℚ`, possibly-infinite lengths as `XAbs`,
and fallible code returns `Except`/`Option`.  Opaque external
capabilities (cell content measurement, celled closures) are
parameters of the embedding.
-/

/-- The largest value of `usize` (64-bit). -/
def usizeMax : ℕ := 2 ^ 64 - 1

/-- Rust `usize::checked_mul`. -/
def checkedMul (a b : ℕ) : Option ℕ :=
  if a * b ≤ usizeMax then some (a * b) else none

/-- Rust `usize::checked_add`. -/
def checkedAdd (a b : ℕ) : Option ℕ :=
  if a + b ≤ usizeMax then some (a + b) else none

/-- Rust `usize::checked_rem`: `none` exactly when the divisor is zero. -/
def checkedRem (a b : ℕ) : Option ℕ :=
  if b = 0 then none else some (a % b)

/-- Rust `Smart<T>`: either an automatic value or a custom one. -/
inductive Smart (α : Type) where
  | auto : Smart α
  | custom (v : α) : Smart α
deriving DecidableEq, Repr

/-- A source span used for diagnostics, modelled as a plain identifier. -/
abbrev Span := ℕ

/-! ## Celled values (`Celled<T>` and `Celled::resolve`, layout.rs:30-63)

The `Func` variant calls an opaque closure through the evaluator; the
closure (including its possible evaluation failure) is embedded as a
function returning `Except`. -/

/-- An evaluation error raised by a celled closure (opaque payload). -/
structure EvalErr where
  code : ℕ
deriving DecidableEq, Repr

/-- A value that can be configured per cell (`Celled<T>`, layout.rs:32-39). -/
inductive Celled (α : Type) where
  | value (v : α) : Celled α
  | func (f : ℕ → ℕ → Except EvalErr α) : Celled α
  | array (arr : List α) : Celled α

/-- Resolve the value based on the cell position
(`Celled::resolve`, layout.rs:43-62).  The `Array` variant computes
`x.checked_rem(array.len()).and_then(|i| array.get(i)).cloned().unwrap_or_default()`. -/
def Celled.resolve [Inhabited α] (c : Celled α) (x y : ℕ) : Except EvalErr α :=
  match c with
  | .value v => .ok v
  | .func f => f x y
  | .array arr =>
      .ok (((checkedRem x arr.length).bind (fun i => arr.get? i)).getD default)

/-! ## The resolver's cell store

During `CellGrid::resolve` the partially built grid is a vector
`resolved_cells : Vec<Option<Entry>>`; an entry is a placed cell or a
position merged into a cell placed at a parent index. -/

/-- A grid entry (`Entry`, layout.rs:226-234).  The cell payload is

irrelevant to placement, so it is dropped here. -/
inductive REntry where
  | cell : REntry
  | merged (parent : ℕ) : REntry
deriving DecidableEq, Repr

/-- The vector of resolved cells built by `CellGrid::resolve`. -/
abbrev Slots := List (Option REntry)

/-- Whether position `i` of the store is occupied, i.e. the Rust pattern
`Some(Some(_))` matches `resolved_cells.get(i)`. -/
def occupied (cells : Slots) (i : ℕ) : Bool :=
  match cells.get? i with
  | some (some _) => true
  | _ => false

/-- Errors produced while resolving a cell position or placing a cell. -/
inductive PlaceErr where
  | posTooLarge : PlaceErr
  | invalidColumn (x : ℕ) : PlaceErr
  | rowFull (y : ℕ) : PlaceErr
  | colspanExceeds : PlaceErr
  | exceedinglyLargeSpan : PlaceErr
  | secondCell (x y : ℕ) : PlaceErr
  | wouldSpan (x y : ℕ) : PlaceErr
deriving DecidableEq, Repr

/-- Translates an `(x, y)` position to the equivalent index in the final
cell vector (`cell_index` closure, layout.rs:855-859):
`y.checked_mul(columns).and_then(|row| row.checked_add(x))`. -/
def cellIndex (columns x y : ℕ) : Except PlaceErr ℕ :=
  match (checkedMul y columns).bind (fun row => checkedAdd row x) with
  | some i => .ok i
  | none => .error .posTooLarge

/-- The `(auto, auto)` search loop (layout.rs:866-873): starting from
`auto_index`, skip occupied slots in row-major order. -/
def firstFreeFrom (cells : Slots) (i : ℕ) : ℕ :=
  if h : occupied cells i then firstFreeFrom cells (i + 1) else i
termination_by cells.length - i
decreasing_by
  have hi : i < cells.length := by
    by_contra hcon
    have hnone : cells.get? i = none := List.get?_eq_none.mpr (le_of_not_lt hcon)
    rw [List.get?_eq_getElem?] at hnone
    simp only [occupied, List.get?_eq_getElem?, hnone] at h
    exact Bool.false_ne_true h
  omega

/-- The `(x, custom)` downward search (layout.rs:894-902), with fuel.
Each step checks `cell_index(cell_x, resolved_y)` (which can overflow)
and stops at the first row whose slot in column `cell_x` is free. -/
def findRowForColumn (cells : Slots) (columns cx : ℕ) : ℕ → ℕ → Except PlaceErr ℕ
  | _, 0 => .error .posTooLarge
  | y, fuel + 1 =>
      match cellIndex columns cx y with
      | .error e => .error e
      | .ok i => if occupied cells i then findRowForColumn cells columns cx (y + 1) fuel
                 else .ok i

/-- Given a cell's requested `x` and `y`, the resolved-cell store, the
`auto_index` counter and the number of columns, return the cell's final
index together with the updated `auto_index`
(`resolve_cell_position`, layout.rs:846-932). -/
def resolveCellPosition (cx cy : Smart ℕ) (cells : Slots) (autoIndex columns : ℕ) :
    Except PlaceErr (ℕ × ℕ) :=
  match cx, cy with
  | .auto, .auto =>
      let i := firstFreeFrom cells autoIndex
      .ok (i, i + 1)
  | .custom cx, cy =>
      if columns ≤ cx then .error (.invalidColumn cx)
      else
        match cy with
        | .custom cy => (cellIndex columns cx cy).map (fun i => (i, autoIndex))
        | .auto =>
            (findRowForColumn cells columns cx 0 (cells.length + 1)).map
              (fun i => (i, autoIndex))
  | .auto, .custom cy =>
      match cellIndex columns 0 cy with
      | .error e => .error e
      | .ok firstRowPos =>
          match checkedAdd firstRowPos columns with
          | none => .error .posTooLarge
          | some lastRowPos =>
              match (List.range (lastRowPos - firstRowPos)).find?
                  (fun dx => ! occupied cells (firstRowPos + dx)) with
              | some dx => .ok (firstRowPos + dx, autoIndex)
              | none => .error (.rowFull cy)

/-! ## Cell placement (`CellGrid::resolve` main loop, layout.rs:475-588)

Only the placement-relevant data of a cell item matters here: its
requested position, spans and diagnostic span.  The cell resolution
against celled defaults (fill, align, inset, stroke) does not influence
placement and is omitted. -/

/-- The placement-relevant data of one `GridItem::Cell`. -/
structure CellItem where
  x : Smart ℕ
  y : Smart ℕ
  colspan : ℕ
  rowspan : ℕ
  span : Span
deriving DecidableEq, Repr

/-- The resolver state threaded through the cell loop. -/
structure RState where
  cells : Slots
  autoIndex : ℕ
deriving Repr

/-- Fill the positions spanned by a cell with `Merged` entries pointing at
the parent index, failing at the first already-occupied non-origin
position (layout.rs:568-588).  `offsets` enumerates `(rowspan_offset,
colspan_offset)` pairs in the source's iteration order. -/
def fillSpan (c resolvedIndex x y : ℕ) (cellSpan : Span) :
    List (ℕ × ℕ) → Slots → Except (Span × PlaceErr) Slots
  | [], cells => .ok cells
  | (ro, co) :: rest, cells =>
      if ro = 0 ∧ co = 0 then fillSpan c resolvedIndex x y cellSpan rest cells
      else
        let spot := resolvedIndex + c * ro + co
        if occupied cells spot then
          .error (cellSpan, .wouldSpan (x + co) (y + ro))
        else
          fillSpan c resolvedIndex x y cellSpan rest
            (cells.set spot (some (.merged resolvedIndex)))

/-- The iteration order of the span-filling loops (layout.rs:568-573):
row offsets outermost, column offsets innermost. -/
def spanOffsets (rowspan colspan : ℕ) : List (ℕ × ℕ) :=
  (List.range rowspan).flatMap (fun ro => (List.range colspan).map (fun co => (ro, co)))

/-- Place one cell item into the resolver state
(`CellGrid::resolve` loop body, layout.rs:475-588): resolve its
position, check its colspan against the remaining columns, compute the
largest spanned index with checked arithmetic, grow the store to a
multiple of `c`, reject an occupied slot, then fill the span. -/
def placeCell (c : ℕ) (st : RState) (item : CellItem) : Except (Span × PlaceErr) RState := do
  let (resolvedIndex, autoIndex) ←
    (resolveCellPosition item.x item.y st.cells st.autoIndex c).mapError
      (fun e => (item.span, e))
  let x := resolvedIndex % c
  let y := resolvedIndex / c
  let colspan := item.colspan
  let rowspan := item.rowspan
  if c - x < colspan then
    .error (item.span, .colspanExceeds)
  else
    match (checkedMul c (rowspan - 1)).bind
        (fun off => (checkedAdd resolvedIndex off).bind
          (fun lastRowPos => checkedAdd lastRowPos (colspan - 1))) with
    | none => .error (item.span, .exceedinglyLargeSpan)
    | some largestIndex => do
        let cells ←
          if st.cells.length ≤ largestIndex then
            match (checkedAdd largestIndex 1).bind
                (fun newLen => checkedAdd newLen ((c - newLen % c) % c)) with
            | none => .error (item.span, .posTooLarge)
            | some newLen =>
                pure (st.cells ++ List.replicate (newLen - st.cells.length) none)
          else
            pure st.cells
        if occupied cells resolvedIndex then
          .error (item.span, .secondCell x y)
        else
          let cells := cells.set resolvedIndex (some .cell)
          let cells ← fillSpan c resolvedIndex x y item.span
            (spanOffsets rowspan colspan) cells
          .ok ⟨cells, autoIndex⟩

/-- Process a list of cell items in order; the first failing item aborts
the whole resolution with its error (the `?` operator in the source's
loop). -/
def placeCells (c : ℕ) (st : RState) : List CellItem → Except (Span × PlaceErr) RState
  | [] => .ok st
  | item :: rest => do placeCells c (← placeCell c st item) rest

/-! ## Line resolution (`CellGrid::resolve`, layout.rs:619-699) -/

/-- A line's position relative to its track (`LinePosition`). -/
inductive LinePos where
  | before : LinePos
  | after : LinePos
deriving DecidableEq, Repr

/-- A custom grid line (`Line` from lines.rs, by its fields used here).
The stroke payload is irrelevant to placement and omitted. -/
structure GLine where
  index : ℕ
  start : ℕ
  stop : Option ℕ
  pos : LinePos
deriving DecidableEq, Repr

/-- Errors of line placement. -/
inductive LineErr where
  | invalidRow (y : ℕ) : LineErr
  | bottomBorderAfter (y : ℕ) : LineErr
  | invalidColumn (x : ℕ) : LineErr
  | endBorderAfter (x : ℕ) : LineErr
deriving DecidableEq, Repr

/-- Resolve one pending hline (layout.rs:626-656): bounds check against
`row_amount`, rejection of an `After` line on the bottom border, and
normalization of `After` to `Before` at `index + 1` when the grid has no
gutter or the line lies on the last track. -/
def resolveHLine (rowAmount : ℕ) (hasGutter : Bool) (line : GLine) :
    Except LineErr GLine :=
  let y := line.index
  if rowAmount < y then .error (.invalidRow y)
  else if y = rowAmount ∧ line.pos = .after then .error (.bottomBorderAfter y)
  else if line.pos = .after ∧ (hasGutter = false ∨ y + 1 = rowAmount) then
    .ok { line with index := y + 1, pos := .before }
  else
    .ok line

/-- Resolve one pending vline (layout.rs:664-692), symmetric to
`resolveHLine` with the column count `c` in place of `row_amount`. -/
def resolveVLine (c : ℕ) (hasGutter : Bool) (line : GLine) :
    Except LineErr GLine :=
  let x := line.index
  if c < x then .error (.invalidColumn x)
  else if x = c ∧ line.pos = .after then .error (.endBorderAfter x)
  else if line.pos = .after ∧ (hasGutter = false ∨ x + 1 = c) then
    .ok { line with index := x + 1, pos := .before }
  else
    .ok line

/-! ## Claim C1: the four positioning rules of `resolve_cell_position` -/

/-- A slot whose linear index is occupied lies inside the store. -/
theorem occupied_lt_length (cells : Slots) (i : ℕ) (h : occupied cells i = true) :
    i < cells.length := by
  by_contra hcon
  have hnone : cells.get? i = none := List.get?_eq_none.mpr (le_of_not_lt hcon)
  rw [List.get?_eq_getElem?] at hnone
  simp only [occupied, List.get?_eq_getElem?, hnone] at h
  exact Bool.false_ne_true h

/-- `cell_index` succeeds exactly on positions within the `usize` bound. -/
theorem cellIndex_ok (C x y : ℕ) (h : y * C + x ≤ usizeMax) :
    cellIndex C x y = .ok (y * C + x) := by
  have h2 : y * C ≤ usizeMax := by omega
  simp [cellIndex, checkedMul, checkedAdd, h, h2]

/-- `cell_index` overflows on positions beyond the `usize` bound. -/
theorem cellIndex_err (C x y : ℕ) (h : ¬ y * C + x ≤ usizeMax) :
    cellIndex C x y = .error .posTooLarge := by
  by_cases h2 : y * C ≤ usizeMax
  · simp [cellIndex, checkedMul, checkedAdd, h, h2]
  · simp [cellIndex, checkedMul, checkedAdd, h2]

/-- Characterization of the `(auto, auto)` search: it lands on the
smallest unoccupied index at or after the starting point. -/
theorem firstFreeFrom_spec (cells : Slots) (i : ℕ) :
    i ≤ firstFreeFrom cells i ∧ occupied cells (firstFreeFrom cells i) = false ∧
      ∀ j, i ≤ j → j < firstFreeFrom cells i → occupied cells j = true := by
  by_cases h : occupied cells i = true
  · have hstep : firstFreeFrom cells i = firstFreeFrom cells (i + 1) := by
      rw [firstFreeFrom]
      simp [h]
    obtain ⟨h1, h2, h3⟩ := firstFreeFrom_spec cells (i + 1)
    rw [hstep]
    refine ⟨by omega, h2, ?_⟩
    intro j hij hlt
    rcases Nat.eq_or_lt_of_le hij with heq | hlt2
    · exact heq ▸ h
    · exact h3 j hlt2 hlt
  · have hstep : firstFreeFrom cells i = i := by
      rw [firstFreeFrom]
      simp [h]
    rw [hstep]
    exact ⟨le_refl _, by simpa using h, fun j hij hlt => absurd hlt (by omega)⟩
termination_by cells.length - i
decreasing_by
  have hi : i < cells.length := occupied_lt_length cells i h
  omega

/-- Characterization of the `(x, auto)` downward search: with enough fuel
and indices within the arithmetic bound, it finds the first row whose
slot in the requested column is unoccupied. -/
theorem findRowForColumn_go (cells : Slots) (C cx : ℕ) (hC : 0 < C)
    (hb : cells.length + C ≤ usizeMax) :
    ∀ fuel y, cells.length + 1 ≤ y + fuel → y ≤ cells.length →
      y * C + cx ≤ usizeMax →
      ∃ r, findRowForColumn cells C cx y fuel = .ok (r * C + cx) ∧ y ≤ r ∧
        occupied cells (r * C + cx) = false ∧
        ∀ z, y ≤ z → z < r → occupied cells (z * C + cx) = true := by
  intro fuel
  induction fuel with
  | zero => intro y h1 h2 h3; omega
  | succ n ih =>
      intro y h1 h2 h3
      have hidx : cellIndex C cx y = .ok (y * C + cx) := cellIndex_ok C cx y h3
      have hstep : findRowForColumn cells C cx y (n + 1) =
          if occupied cells (y * C + cx) = true then
            findRowForColumn cells C cx (y + 1) n
          else .ok (y * C + cx) := by
        rw [findRowForColumn, hidx]
      rw [hstep]
      by_cases hocc : occupied cells (y * C + cx) = true
      · rw [if_pos hocc]
        have hlt : y * C + cx < cells.length := occupied_lt_length _ _ hocc
        have hyC : y ≤ y * C := Nat.le_mul_of_pos_right y hC
        obtain ⟨r, hr, hyr, hfree, hall⟩ := ih (y + 1) (by omega) (by omega)
          (by have heq : (y + 1) * C + cx = y * C + cx + C := by ring
              omega)
        refine ⟨r, hr, by omega, hfree, ?_⟩
        intro z hyz hzr
        rcases Nat.eq_or_lt_of_le hyz with heq | hlt2
        · exact heq ▸ hocc
        · exact hall z hlt2 hzr
      · rw [if_neg hocc]
        exact ⟨y, rfl, le_refl _, Bool.eq_false_iff.mpr hocc,
          fun z hyz hzr => absurd hzr (by omega)⟩

/-- Scanning `List.range n` finds nothing when the predicate fails
everywhere below `n`. -/
theorem range_find?_none (p : ℕ → Bool) (n : ℕ) (h : ∀ k < n, p k = false) :
    (List.range n).find? p = none := by
  induction n with
  | zero => rfl
  | succ m ih =>
      rw [List.range_succ, List.find?_append, ih (fun k hk => h k (by omega))]
      simp [h m (by omega)]

/-- Scanning `List.range n` in order finds the least witness of the
predicate. -/
theorem range_find?_some (p : ℕ → Bool) (n k : ℕ) (hk : k < n) (hp : p k = true)
    (hmin : ∀ j < k, p j = false) : (List.range n).find? p = some k := by
  induction n with
  | zero => omega
  | succ m ih =>
      rw [List.range_succ, List.find?_append]
      rcases Nat.lt_or_ge k m with hlt | hge
      · rw [ih hlt]
        rfl
      · have hkm : k = m := by omega
        subst hkm
        rw [range_find?_none p k hmin]
        simp [hp]

/-- Claim C1.  With `C = max(1, column count)` and any store of already
placed slots, `resolve_cell_position` implements the four positioning
rules: `(auto, auto)` places at the smallest unoccupied row-major index
at or past `auto_index` and bumps `auto_index` past it; `(x, auto)`
fails for `x ≥ C` and otherwise places at the first row whose slot in
column `x` is free; `(auto, y)` places at the first free column of row
`y` in `[0, C)` and fails when the row is full; `(x, y)` places exactly
at `y*C + x` (all within the checked `usize` arithmetic bounds). -/
theorem resolveCellPosition_rules (cells : Slots) (a C : ℕ) (hC : 0 < C) :
    (∃ i, resolveCellPosition .auto .auto cells a C = .ok (i, i + 1) ∧
       a ≤ i ∧ occupied cells i = false ∧
       ∀ j, a ≤ j → j < i → occupied cells j = true) ∧
    (∀ c cy, C ≤ c →
       resolveCellPosition (.custom c) cy cells a C = .error (.invalidColumn c)) ∧
    (∀ c r, c < C →
       resolveCellPosition (.custom c) (.custom r) cells a C =
         (if r * C + c ≤ usizeMax then .ok (r * C + c, a)
          else .error .posTooLarge)) ∧
    (∀ c, c < C → cells.length + C ≤ usizeMax →
       ∃ r, resolveCellPosition (.custom c) .auto cells a C = .ok (r * C + c, a) ∧
         occupied cells (r * C + c) = false ∧
         ∀ z < r, occupied cells (z * C + c) = true) ∧
    (∀ r, r * C + C ≤ usizeMax →
       (∀ dx < C, occupied cells (r * C + dx) = true) →
       resolveCellPosition .auto (.custom r) cells a C = .error (.rowFull r)) ∧
    (∀ r dx0, r * C + C ≤ usizeMax → dx0 < C →
       occupied cells (r * C + dx0) = false →
       (∀ dx < dx0, occupied cells (r * C + dx) = true) →
       resolveCellPosition .auto (.custom r) cells a C = .ok (r * C + dx0, a)) := by
  have hidx0 : ∀ r : ℕ, r * C + C ≤ usizeMax → cellIndex C 0 r = .ok (r * C) := by
    intro r hr
    have := cellIndex_ok C 0 r (by omega)
    simpa using this
  have hadd : ∀ r : ℕ, r * C + C ≤ usizeMax →
      checkedAdd (r * C) C = some (r * C + C) := by
    intro r hr
    simp [checkedAdd, hr]
  refine ⟨?_, ?_, ?_, ?_, ?_, ?_⟩
  · obtain ⟨h1, h2, h3⟩ := firstFreeFrom_spec cells a
    exact ⟨firstFreeFrom cells a, rfl, h1, h2, h3⟩
  · intro c cy hge
    cases cy <;> simp [resolveCellPosition, hge]
  · intro c r hlt
    simp only [resolveCellPosition]
    rw [if_neg (by omega)]
    by_cases hb : r * C + c ≤ usizeMax
    · rw [cellIndex_ok C c r hb, if_pos hb]
      rfl
    · rw [cellIndex_err C c r hb, if_neg hb]
      rfl
  · intro c hlt hb
    obtain ⟨r, hr, hge, hfree, hall⟩ :=
      findRowForColumn_go cells C c hC hb (cells.length + 1) 0 (by omega)
        (by omega) (by omega)
    refine ⟨r, ?_, hfree, fun z hz => hall z (Nat.zero_le z) hz⟩
    simp only [resolveCellPosition]
    rw [if_neg (by omega), hr]
    rfl
  · intro r hb hall
    simp only [resolveCellPosition, hidx0 r hb, hadd r hb]
    have hsub : r * C + C - r * C = C := by omega
    rw [hsub, range_find?_none _ C (by intro k hk; simp [hall k hk])]
  · intro r dx0 hb hdx hfree hall
    simp only [resolveCellPosition, hidx0 r hb, hadd r hb]
    have hsub : r * C + C - r * C = C := by omega
    rw [hsub, range_find?_some _ C dx0 hdx (by simp [hfree])
      (by intro j hj; simp [hall j hj])]

/-- Concrete instantiation of the C1 rules on a store with one occupied
slot, discharging every hypothesis. -/
theorem resolveCellPosition_rules_check :
    ∃ r, resolveCellPosition (.custom 0) .auto [some .cell, none] 7 2 =
        .ok (r * 2 + 0, 7) ∧
      occupied [some .cell, none] (r * 2 + 0) = false ∧
      ∀ z < r, occupied [some .cell, none] (z * 2 + 0) = true :=
  (resolveCellPosition_rules [some .cell, none] 7 2 (by decide)).2.2.2.1 0
    (by decide) (by decide)

/-! ## Claim C8: `Celled::resolve` on the `Array` variant -/

/-- Claim C8.  Resolving `Celled::Array(arr)` at `(x, y)` yields
`arr[x mod arr.len()]` when `arr` is non-empty and the default value
when `arr` is empty; the row coordinate `y` never influences the
result. -/
theorem celled_array_resolve {α : Type} [Inhabited α] (arr : List α) (x y : ℕ) :
    (arr.length ≠ 0 →
       (Celled.array arr).resolve x y = .ok (arr.getD (x % arr.length) default)) ∧
    (arr.length = 0 → (Celled.array arr).resolve x y = .ok default) ∧
    (∀ n, (Celled.array arr).resolve x y = (Celled.array arr).resolve x n) := by
  refine ⟨?_, ?_, ?_⟩
  · intro hne
    have hlt : x % arr.length < arr.length := Nat.mod_lt x (Nat.pos_of_ne_zero hne)
    have hget : arr.get? (x % arr.length) = some (arr.getD (x % arr.length) default) := by
      rw [List.get?_eq_getElem?, List.getElem?_eq_getElem hlt,
        List.getD_eq_getElem arr default hlt]
    simp [Celled.resolve, checkedRem, hne, hget]
  · intro hz
    simp [Celled.resolve, checkedRem, hz]
  · intro n
    rfl

/-- Concrete check of the C8 rules on a two-element array. -/
theorem celled_array_resolve_check :
    ([10, 20].length ≠ 0 ∧
      (Celled.array [10, 20]).resolve 5 3 = .ok ([10, 20].getD (5 % 2) 0)) ∧
    ([] : List ℕ).length = 0 ∧
      (Celled.array ([] : List ℕ)).resolve 5 3 = .ok 0 :=
  ⟨⟨by decide, (celled_array_resolve [10, 20] 5 3).1 (by decide)⟩,
   ⟨rfl, (celled_array_resolve ([] : List ℕ) 5 3).2.1 rfl⟩⟩

/-! ## Claim C7: resolution of pending hlines and vlines -/

/-- Claim C7.  During line resolution, an `After` line is rewritten to
`Before` at `index + 1` exactly when the grid has no gutter or the line
lies on the last track; resolution fails for an hline with `y > R`, for
an `After` hline at `y = R` (the bottom border), and symmetrically for
vlines against the column count `C`. -/
theorem line_resolution_rules (R C : ℕ) (g : Bool) (l : GLine) :
    (R < l.index → resolveHLine R g l = .error (.invalidRow l.index)) ∧
    (l.index = R → l.pos = .after →
       resolveHLine R g l = .error (.bottomBorderAfter l.index)) ∧
    (l.index < R → l.pos = .after → (g = false ∨ l.index + 1 = R) →
       resolveHLine R g l = .ok { l with index := l.index + 1, pos := .before }) ∧
    (l.index < R → l.pos = .after → g = true → l.index + 1 ≠ R →
       resolveHLine R g l = .ok l) ∧
    (l.index ≤ R → l.pos = .before → resolveHLine R g l = .ok l) ∧
    (C < l.index → resolveVLine C g l = .error (.invalidColumn l.index)) ∧
    (l.index = C → l.pos = .after →
       resolveVLine C g l = .error (.endBorderAfter l.index)) ∧
    (l.index < C → l.pos = .after → (g = false ∨ l.index + 1 = C) →
       resolveVLine C g l = .ok { l with index := l.index + 1, pos := .before }) ∧
    (l.index < C → l.pos = .after → g = true → l.index + 1 ≠ C →
       resolveVLine C g l = .ok l) ∧
    (l.index ≤ C → l.pos = .before → resolveVLine C g l = .ok l) := by
  refine ⟨?_, ?_, ?_, ?_, ?_, ?_, ?_, ?_, ?_, ?_⟩
  · intro h
    simp [resolveHLine, h]
  · intro h hp
    simp [resolveHLine, h, hp, if_neg (by omega : ¬ R < R)]
  · intro h hp hg
    simp only [resolveHLine]
    rw [if_neg (by omega), if_neg (by simp [hp]; omega), if_pos (by simp [hp]; tauto)]
  · intro h hp hg hne
    simp only [resolveHLine]
    rw [if_neg (by omega), if_neg (by simp [hp]; omega),
      if_neg (by simp [hp, hg]; omega)]
  · intro h hp
    simp only [resolveHLine]
    rw [if_neg (by omega), if_neg (by simp [hp]), if_neg (by simp [hp])]
  · intro h
    simp [resolveVLine, h]
  · intro h hp
    simp [resolveVLine, h, hp, if_neg (by omega : ¬ C < C)]
  · intro h hp hg
    simp only [resolveVLine]
    rw [if_neg (by omega), if_neg (by simp [hp]; omega), if_pos (by simp [hp]; tauto)]
  · intro h hp hg hne
    simp only [resolveVLine]
    rw [if_neg (by omega), if_neg (by simp [hp]; omega),
      if_neg (by simp [hp, hg]; omega)]
  · intro h hp
    simp only [resolveVLine]
    rw [if_neg (by omega), if_neg (by simp [hp]), if_neg (by simp [hp])]

/-- Concrete check of the C7 rules: an `After` hline inside a gutter grid
is kept, and the same line in a gutterless grid is normalized. -/
theorem line_resolution_rules_check :
    resolveHLine 5 true ⟨2, 0, none, .after⟩ = .ok ⟨2, 0, none, .after⟩ ∧
    resolveHLine 5 false ⟨2, 0, none, .after⟩ = .ok ⟨3, 0, none, .before⟩ ∧
    resolveHLine 5 true ⟨5, 0, none, .after⟩ = .error (.bottomBorderAfter 5) ∧
    resolveVLine 4 true ⟨6, 0, none, .before⟩ = .error (.invalidColumn 6) :=
  ⟨(line_resolution_rules 5 0 true ⟨2, 0, none, .after⟩).2.2.2.1 (by decide) rfl rfl
      (by decide),
   (line_resolution_rules 5 0 false ⟨2, 0, none, .after⟩).2.2.1 (by decide) rfl
      (Or.inl rfl),
   (line_resolution_rules 5 0 true ⟨5, 0, none, .after⟩).2.1 rfl rfl,
   (line_resolution_rules 0 4 true ⟨6, 0, none, .before⟩).2.2.2.2.2.1 (by decide)⟩

/-! ## Claim C2: failure modes of cell placement in `CellGrid::resolve` -/

/-- Growing the store with absent slots does not change occupancy. -/
theorem occupied_append_none (cells : Slots) (n i : ℕ) :
    occupied (cells ++ List.replicate n none) i = occupied cells i := by
  simp only [occupied, List.get?_eq_getElem?, List.getElem?_append]
  rcases Nat.lt_or_ge i cells.length with hlt | hge
  · rw [if_pos hlt]
  · rw [if_neg (by omega), List.getElem?_eq_none hge, List.getElem?_replicate]
    rcases Nat.lt_or_ge (i - cells.length) n with h2 | h2
    · rw [if_pos h2]
    · rw [if_neg (by omega)]

/-- Writing an entry into a slot preserves the occupancy of every
occupied slot. -/
theorem occupied_set_mono (cells : Slots) (k : ℕ) (v : REntry) (j : ℕ)
    (h : occupied cells j = true) :
    occupied (cells.set k (some v)) j = true := by
  simp only [occupied, List.get?_eq_getElem?] at h ⊢
  rcases eq_or_ne j k with heq | hne
  · subst heq
    have hj : j < cells.length := by
      by_contra hcon
      rw [List.getElem?_eq_none (by omega)] at h
      exact Bool.false_ne_true h
    rw [List.getElem?_set_self (by simpa using hj)]
  · rw [List.getElem?_set_ne (by omega)]
    exact h

/-- If some non-origin offset of the span hits an occupied slot, filling
the span fails with a `wouldSpan` diagnostic carrying the cell's span. -/
theorem fillSpan_err (c resolvedIndex x y : ℕ) (cellSpan : Span) :
    ∀ (offs : List (ℕ × ℕ)) (cells : Slots) (ro co : ℕ),
      (ro, co) ∈ offs → ¬(ro = 0 ∧ co = 0) →
      occupied cells (resolvedIndex + c * ro + co) = true →
      ∃ dx dy, fillSpan c resolvedIndex x y cellSpan offs cells =
        .error (cellSpan, .wouldSpan dx dy) := by
  intro offs
  induction offs with
  | nil => intro cells ro co hmem; simp at hmem
  | cons head rest ih =>
      intro cells ro co hmem hno hocc
      obtain ⟨hro, hco⟩ := head
      rw [fillSpan]
      by_cases h0 : hro = 0 ∧ hco = 0
      · rw [if_pos h0]
        rcases List.mem_cons.mp hmem with heq | hmem2
        · exact absurd (by injection heq with h1 h2; exact ⟨h1.symm ▸ h0.1, h2.symm ▸ h0.2⟩) hno
        · exact ih cells ro co hmem2 hno hocc
      · rw [if_neg h0]
        by_cases hocc2 : occupied cells (resolvedIndex + c * hro + hco) = true
        · rw [if_pos hocc2]
          exact ⟨x + hco, y + hro, rfl⟩
        · rw [if_neg hocc2]
          rcases List.mem_cons.mp hmem with heq | hmem2
          · injection heq with h1 h2
            subst h1; subst h2
            exact absurd hocc hocc2
          · exact ih _ ro co hmem2 hno (occupied_set_mono _ _ _ _ hocc)

/-- Every `(ro, co)` with `ro < rowspan` and `co < colspan` is visited by
the span-filling loops. -/
theorem mem_spanOffsets (rowspan colspan ro co : ℕ) (hr : ro < rowspan)
    (hc : co < colspan) : (ro, co) ∈ spanOffsets rowspan colspan := by
  simp only [spanOffsets, List.mem_flatMap, List.mem_map, List.mem_range]
  exact ⟨ro, hr, co, hc, rfl⟩

/-- Claim C2.  `CellGrid::resolve` aborts with an error carrying the
offending cell's span whenever (b) the cell's colspan exceeds `C - x`
for its resolved column `x`, (a) the resolved position is already
occupied, or (c) a non-origin position inside the colspan-by-rowspan
rectangle is already occupied (with the "would span a previously placed
cell" diagnostic); and any such failing item aborts the processing of
the whole item list with that error. -/
theorem cellgrid_placement_errors (c : ℕ) (hc : 0 < c) (st : RState) (item : CellItem)
    (idx a2 : ℕ)
    (hres : resolveCellPosition item.x item.y st.cells st.autoIndex c =
      .ok (idx, a2)) :
    (c - idx % c < item.colspan →
       placeCell c st item = .error (item.span, .colspanExceeds)) ∧
    (∀ L, item.colspan ≤ c - idx % c →
       (checkedMul c (item.rowspan - 1)).bind
           (fun off => (checkedAdd idx off).bind
             (fun p => checkedAdd p (item.colspan - 1))) = some L →
       L + c ≤ usizeMax →
       occupied st.cells idx = true →
       placeCell c st item = .error (item.span, .secondCell (idx % c) (idx / c))) ∧
    (∀ L ro co, item.colspan ≤ c - idx % c →
       (checkedMul c (item.rowspan - 1)).bind
           (fun off => (checkedAdd idx off).bind
             (fun p => checkedAdd p (item.colspan - 1))) = some L →
       L + c ≤ usizeMax →
       occupied st.cells idx = false →
       ro < item.rowspan → co < item.colspan → ¬(ro = 0 ∧ co = 0) →
       occupied st.cells (idx + c * ro + co) = true →
       ∃ dx dy, placeCell c st item = .error (item.span, .wouldSpan dx dy)) ∧
    (∀ (pre post : List CellItem) (st0 st1 : RState) (e : Span × PlaceErr),
       placeCells c st0 pre = .ok st1 →
       placeCell c st1 item = .error e →
       placeCells c st0 (pre ++ item :: post) = .error e) := by
  have hgrow : ∀ L, st.cells.length ≤ L → L + c ≤ usizeMax →
      ((checkedAdd L 1).bind
        (fun newLen => checkedAdd newLen ((c - newLen % c) % c))) =
      some (L + 1 + ((c - (L + 1) % c) % c)) := by
    intro L hle hmax
    have h1 : L + 1 ≤ usizeMax := by omega
    have h2 : L + 1 + (c - (L + 1) % c) % c ≤ usizeMax := by
      have := Nat.mod_lt (c - (L + 1) % c) hc
      omega
    simp [checkedAdd, h1, h2]
  refine ⟨?_, ?_, ?_, ?_⟩
  · intro hb
    simp [placeCell, hres, Except.mapError, Bind.bind, Except.bind, if_pos hb]
  · intro L hnb hL hmax hocc
    have hle : st.cells.length ≤ L ∨ L < st.cells.length := by omega
    simp only [placeCell, hres, Except.mapError, Bind.bind, Except.bind, hL]
    rw [if_neg (by omega)]
    rcases Nat.lt_or_ge L st.cells.length with hlt | hge
    · rw [if_neg (by omega)]
      simp only [pure, Except.pure]
      rw [if_pos hocc]
    · rw [if_pos (by omega), hgrow L hge hmax]
      simp only [pure, Except.pure]
      rw [if_pos (by rw [occupied_append_none]; exact hocc)]
  · intro L ro co hnb hL hmax hfree hro hco hno hocc
    simp only [placeCell, hres, Except.mapError, Bind.bind, Except.bind, hL]
    rw [if_neg (by omega)]
    have key : ∀ grown : Slots,
        (∀ i, occupied grown i = occupied st.cells i) →
        ∃ dx dy,
          (if occupied grown idx = true then
            Except.error (item.span, PlaceErr.secondCell (idx % c) (idx / c))
          else do
            let cells ← fillSpan c idx (idx % c) (idx / c) item.span
              (spanOffsets item.rowspan item.colspan)
              (grown.set idx (some REntry.cell))
            Except.ok (⟨cells, a2⟩ : RState)) =
          .error (item.span, .wouldSpan dx dy) := by
      intro grown hsame
      rw [if_neg (by rw [hsame]; simp [hfree])]
      obtain ⟨dx, dy, hfill⟩ := fillSpan_err c idx (idx % c) (idx / c) item.span
        (spanOffsets item.rowspan item.colspan) (grown.set idx (some .cell)) ro co
        (mem_spanOffsets _ _ _ _ hro hco) hno
        (occupied_set_mono _ _ _ _ (by rw [hsame]; exact hocc))
      exact ⟨dx, dy, by simp [Bind.bind, Except.bind, hfill]⟩
    rcases Nat.lt_or_ge L st.cells.length with hlt | hge
    · rw [if_neg (by omega)]
      simp only [pure, Except.pure, Bind.bind, Except.bind]
      obtain ⟨dx, dy, hkey⟩ := key st.cells (fun i => rfl)
      refine ⟨dx, dy, ?_⟩
      simpa [Bind.bind, Except.bind] using hkey
    · rw [if_pos (by omega), hgrow L hge hmax]
      simp only [pure, Except.pure, Bind.bind, Except.bind]
      obtain ⟨dx, dy, hkey⟩ := key _ (fun i => occupied_append_none _ _ i)
      refine ⟨dx, dy, ?_⟩
      simpa [Bind.bind, Except.bind] using hkey
  · intro pre post st0 st1 e hpre herr
    induction pre generalizing st0 with
    | nil =>
        simp only [placeCells] at hpre
        injection hpre with h1
        subst h1
        simp [placeCells, Bind.bind, Except.bind, herr]
    | cons hd tl ih =>
        simp only [placeCells, Bind.bind, Except.bind] at hpre ⊢
        cases hplace : placeCell c st0 hd with
        | error e2 => rw [hplace] at hpre; simp at hpre
        | ok st2 =>
            rw [hplace] at hpre
            simp only at hpre
            exact ih st2 hpre

/-- Concrete check of the C2 failure modes at a 2-column grid. -/
theorem cellgrid_placement_errors_check :
    placeCell 2 ⟨[some .cell, none], 0⟩ ⟨.custom 1, .custom 0, 2, 1, 42⟩ =
      .error (42, .colspanExceeds) ∧
    placeCell 2 ⟨[some .cell, none], 0⟩ ⟨.custom 0, .custom 0, 1, 1, 42⟩ =
      .error (42, .secondCell 0 0) ∧
    (∃ dx dy, placeCell 2 ⟨[none, some .cell], 0⟩ ⟨.custom 0, .custom 0, 2, 1, 42⟩ =
      .error (42, .wouldSpan dx dy)) := by
  refine ⟨?_, ?_, ?_⟩
  · exact (cellgrid_placement_errors 2 (by decide) ⟨[some .cell, none], 0⟩
      ⟨.custom 1, .custom 0, 2, 1, 42⟩ 1 0 (by rfl)).1 (by decide)
  · exact (cellgrid_placement_errors 2 (by decide) ⟨[some .cell, none], 0⟩
      ⟨.custom 0, .custom 0, 1, 1, 42⟩ 0 0 (by rfl)).2.1 0 (by decide) (by decide)
      (by decide) (by decide)
  · exact (cellgrid_placement_errors 2 (by decide) ⟨[none, some .cell], 0⟩
      ⟨.custom 0, .custom 0, 2, 1, 42⟩ 0 0 (by rfl)).2.2.1 1 0 1 (by decide)
      (by decide) (by decide) (by decide) (by decide) (by decide) (by decide)
      (by decide)

/-! ## Sizing, lengths, and the resolved grid

`Abs` (an `f64`-backed absolute length in points) is modelled as `ℚ`;
`XAbs` adds the infinite value taken by auto-sized page dimensions.
`Rel` tracks carry the length obtained by resolving them against the
region base, since style resolution is opaque to the layouter. -/

/-- A possibly infinite absolute length. -/
inductive XAbs where
  | fin (q : ℚ) : XAbs
  | inf : XAbs
deriving DecidableEq, Repr

/-- Subtract a finite length from a possibly infinite one. -/
def XAbs.subQ : XAbs → ℚ → XAbs
  | .fin a, q => .fin (a - q)
  | .inf, _ => .inf

/-- Whether the length is nonnegative (`>= Abs::zero()`). -/
def XAbs.nonneg : XAbs → Bool
  | .fin a => decide (0 ≤ a)
  | .inf => true

/-- Whether the length is finite (`Abs::is_finite`). -/
def XAbs.finite : XAbs → Bool
  | .fin _ => true
  | .inf => false

/-- Track sizing (`Sizing`): auto, relative (already resolved against the
region base), or fractional. -/
inductive Sizing where
  | auto : Sizing
  | rel (len : ℚ) : Sizing
  | fr (v : ℚ) : Sizing
deriving DecidableEq, Repr

/-- The resolved length contributed by a relative track; zero for auto
and fractional tracks (which start at zero in `rcols`). -/
def relSizeOf : Sizing → ℚ
  | .rel v => v
  | _ => 0

/-- The fraction contributed by a fractional track. -/
def frOf : Sizing → ℚ
  | .fr v => v
  | _ => 0

/-- Sum of resolved relative track sizes (`rel` in `measure_columns`). -/
def relSum (cols : List Sizing) : ℚ := (cols.map relSizeOf).sum

/-- Sum of fractions of fractional tracks (`fr` in `measure_columns`). -/
def frSum (cols : List Sizing) : ℚ := (cols.map frOf).sum

/-- The `rcols` vector after the first phase of `measure_columns`
(layout.rs:1339-1350): relative tracks hold their resolved size, all
other tracks are still zero. -/
def initialRcols (cols : List Sizing) : List ℚ := cols.map relSizeOf

/-- A cell of the resolved grid as seen by the layouter: its spans and
its resolved breakability.  The body is an opaque capability accessed
through the measurement oracles. -/
structure GCell where
  colspan : ℕ
  rowspan : ℕ
  breakable : Bool
deriving DecidableEq, Repr

/-- A grid entry (`Entry`): a cell or a position merged into the cell
placed at a parent index. -/
inductive GEntry where
  | cell (c : GCell) : GEntry
  | merged (parent : ℕ) : GEntry
deriving DecidableEq, Repr

/-- Obtains the cell inside this entry (`Entry::as_cell`). -/
def GEntry.asCell : GEntry → Option GCell
  | .cell c => some c
  | .merged _ => none

/-- The resolved `CellGrid`: tracks including gutter tracks, row-major
content entries, and the gutter flag (layout.rs:314-331). -/
structure Grid where
  cols : List Sizing
  rows : List Sizing
  entries : List GEntry
  hasGutter : Bool
deriving DecidableEq, Repr

/-- Get the grid entry in column `x` and row `y`; `none` on gutter
tracks (`CellGrid::entry`, layout.rs:763-779). -/
def Grid.entry (g : Grid) (x y : ℕ) : Option GEntry :=
  if g.hasGutter then
    if x % 2 = 0 ∧ y % 2 = 0 then
      g.entries.get? ((y / 2) * (1 + g.cols.length / 2) + x / 2)
    else none
  else
    g.entries.get? (y * g.cols.length + x)

/-- Get the cell in column `x` and row `y`; `none` for gutter or merged
positions (`CellGrid::cell`, layout.rs:785-787). -/
def Grid.cellAt (g : Grid) (x y : ℕ) : Option GCell :=
  (g.entry x y).bind GEntry.asCell

/-- The position of the parent cell of the entry at the given position
(`CellGrid::parent_cell_position`, layout.rs:797-810). -/
def Grid.parentCellPosition (g : Grid) (x y : ℕ) : Option (ℕ × ℕ) :=
  (g.entry x y).map fun e =>
    match e with
    | .cell _ => (x, y)
    | .merged parent =>
        let c := if g.hasGutter then 1 + g.cols.length / 2 else g.cols.length
        let factor := if g.hasGutter then 2 else 1
        (factor * (parent % c), factor * (parent / c))

/-- Whether the track with the given index is gutter
(`CellGrid::is_gutter_track`, layout.rs:815-817). -/
def Grid.isGutterTrack (g : Grid) (index : ℕ) : Bool :=
  g.hasGutter && index % 2 = 1

/-- Effective colspan of a cell counting spanned gutter tracks
(`CellGrid::effective_colspan_of_cell`, layout.rs:822-828). -/
def Grid.effColspan (g : Grid) (c : GCell) : ℕ :=
  if g.hasGutter then 2 * c.colspan - 1 else c.colspan

/-- Effective rowspan of a cell counting spanned gutter tracks
(`CellGrid::effective_rowspan_of_cell`, layout.rs:833-839). -/
def Grid.effRowspan (g : Grid) (c : GCell) : ℕ :=
  if g.hasGutter then 2 * c.rowspan - 1 else c.rowspan

/-! ## Column sizing (`GridLayouter::measure_columns`, layout.rs:1330-1552) -/

/-- Modelled from the spec: `Fr::share(total_fr, remaining)` distributes
the remaining space proportionally, `fr_i / sum_fr * remainder`
(spec sections 2 and 4.4).  `Fr` itself lives outside the grid sources;
a zero total or a non-finite remainder distributes nothing. -/
def frShare (v total : ℚ) (remaining : XAbs) : ℚ :=
  match remaining with
  | .fin r => if total = 0 then 0 else v / total * r
  | .inf => 0

/-- Total width spanned by a cell among resolved columns, gutter
included (`GridLayouter::cell_spanned_width`, layout.rs:1376-1379). -/
def cellSpannedWidth (rcols : List ℚ) (x colspan : ℕ) : ℚ :=
  (((rcols.drop x).take colspan)).sum

/-- Indices of all fractional columns (`all_frac_cols`,
layout.rs:1389-1396). -/
def fracCols (cols : List Sizing) : List ℕ :=
  (cols.enum.filter (fun p => match p.2 with | .fr _ => true | _ => false)).map (·.1)

/-- The last (maximum-index) auto column spanned by a cell
(`last_spanned_auto_col`, layout.rs:1420-1429). -/
def lastSpannedAutoCol (cols : List Sizing) (px colspan : ℕ) : Option ℕ :=
  ((((cols.enum.drop px).take colspan).reverse.find?
    (fun p => p.2 == Sizing.auto)).map (·.1))

/-- The expected height of a cell: the sum of the resolved relative
heights of its spanned rows, or the region base height if any spanned
row is auto or fractional (layout.rs:1458-1477). -/
def tryRelHeights : List Sizing → Option ℚ
  | [] => some 0
  | r :: rest =>
      match r with
      | .rel v => (tryRelHeights rest).map (fun acc => v + acc)
      | _ => none

/-- Expected available height for a cell spanning `rowspan` tracks from
row `y`. -/
def spannedRelHeight (rows : List Sizing) (y rowspan : ℕ) (baseY : XAbs) : XAbs :=
  match tryRelHeights ((rows.drop y).take rowspan) with
  | some s => .fin s
  | none => baseY

/-- The measurement capability used while sizing auto columns: given the
parent cell's position and the measurement pod size
(`Size::new(available, height)` with no expansion), the width of the
measured frame (layout.rs:1494-1497). -/
abbrev ColMeasure := ℕ → ℕ → XAbs → XAbs → ℚ

/-- Whether measuring the cell parented at `(px, py)` is skipped by the
colspan heuristic of auto column sizing (layout.rs:1438-1453): the cell
spans more than one track, the region width is finite, and the cell
spans all fractional columns of the grid. -/
def colspanHeuristic (g : Grid) (regionX : XAbs) (px py : ℕ) : Bool :=
  match g.cellAt px py with
  | none => false
  | some cell =>
      let colspan := g.effColspan cell
      1 < colspan && regionX.finite && !(fracCols g.cols).isEmpty &&
        (fracCols g.cols).all (fun i => px ≤ i && i < px + colspan)

/-- One step of the inner row scan of `measure_auto_columns`
(layout.rs:1406-1498): locate the parent cell at `(x, y)`, skip merged
continuations, rowspan repeats, colspans whose last auto column is not
`x`, and cells caught by the colspan heuristic; otherwise measure and
grow the column's resolved size. -/
def autoColumnCell (g : Grid) (cm : ColMeasure) (rcols : List ℚ)
    (available regionX baseY : XAbs) (x : ℕ) (resolved : ℚ) (y : ℕ) : ℚ :=
  match g.parentCellPosition x y with
  | none => resolved
  | some (px, py) =>
      if py ≠ y then resolved
      else
        match g.cellAt px py with
        | none => resolved
        | some cell =>
            let colspan := g.effColspan cell
            if 1 < colspan ∧ lastSpannedAutoCol g.cols px colspan ≠ some x then
              resolved
            else if colspanHeuristic g regionX px py then resolved
            else
              let rowspan := g.effRowspan cell
              let height := spannedRelHeight g.rows y rowspan baseY
              let coveredWidth := cellSpannedWidth rcols px colspan
              max resolved (cm px py available height - coveredWidth)

/-- The resolved size of one auto column: the maximum over all cells
whose last spanned auto column is this one. -/
def measureAutoCol (g : Grid) (cm : ColMeasure) (rcols : List ℚ)
    (available regionX baseY : XAbs) (x : ℕ) : ℚ :=
  (List.range g.rows.length).foldl
    (autoColumnCell g cm rcols available regionX baseY x) 0

/-- One column step of `measure_auto_columns`: skip non-auto tracks,
otherwise resolve the column, accumulate its width and count it. -/
def measureAutoColsStep (g : Grid) (cm : ColMeasure)
    (available regionX baseY : XAbs) (st : List ℚ × ℚ × ℕ) (x : ℕ) :
    List ℚ × ℚ × ℕ :=
  if g.cols.getD x .auto ≠ .auto then st
  else
    let resolved := measureAutoCol g cm st.1 available regionX baseY x
    (st.1.set x resolved, st.2.1 + resolved, st.2.2 + 1)

/-- Measure the size available to auto columns
(`GridLayouter::measure_auto_columns`, layout.rs:1382-1506), returning
the updated `rcols`, the total width of auto columns, and their count. -/
def measureAutoCols (g : Grid) (cm : ColMeasure) (rcols : List ℚ)
    (available regionX baseY : XAbs) : List ℚ × ℚ × ℕ :=
  (List.range g.cols.length).foldl
    (measureAutoColsStep g cm available regionX baseY) (rcols, 0, 0)

/-- Distribute remaining space to fractional columns
(`GridLayouter::grow_fractional_columns`, layout.rs:1509-1519). -/
def growFractionalColumns (cols : List Sizing) (rcols : List ℚ)
    (remaining : XAbs) (frTot : ℚ) : List ℚ :=
  if frTot = 0 then rcols
  else
    List.zipWith
      (fun col rcol =>
        match col with
        | .fr v => frShare v frTot remaining
        | _ => rcol)
      cols rcols

/-- Comparison against the running `last` threshold of
`shrink_auto_columns`; `none` stands for the initial `-Abs::inf()`. -/
def ltLast : Option ℚ → ℚ → Bool
  | none, _ => true
  | some l, r => decide (l < r)

/-- One pass of the shrinking loop (layout.rs:1535-1543): remove from
the pool every auto column that is not overlarge (`rcol ≤ fair`) and
was not removed before (`rcol > last`), deducting its width and
decrementing the pool count. -/
def shrinkPass (cols : List Sizing) (rcols : List ℚ) (fair : ℚ)
    (last : Option ℚ) (redistribute : ℚ) (overlarge : ℕ) : ℚ × ℕ × Bool :=
  (cols.zip rcols).foldl
    (fun st p =>
      if p.1 = Sizing.auto ∧ p.2 ≤ fair ∧ ltLast last p.2 then
        (st.1 - p.2, st.2.1 - 1, true)
      else st)
    (redistribute, overlarge, false)

/-- The iterative fair computation of `shrink_auto_columns`
(layout.rs:1523-1544), with fuel.  Each continuing iteration removes at
least one column from the pool, so `count + 2` units of fuel always
suffice; `none` stands for the initial `fair = -Abs::inf()`. -/
def shrinkLoop (cols : List Sizing) (rcols : List ℚ) :
    ℕ → Bool → Option ℚ → ℚ → ℕ → Option ℚ
  | 0, _, fair, _, _ => fair
  | fuel + 1, changed, fair, redistribute, overlarge =>
      if changed ∧ overlarge ≠ 0 then
        let fair2 : ℚ := redistribute / (overlarge : ℚ)
        let p := shrinkPass cols rcols fair2 fair redistribute overlarge
        shrinkLoop cols rcols fuel p.2.2 (some fair2) p.1 p.2.1
      else fair

/-- Redistribute space to auto columns so that each gets a fair share
(`GridLayouter::shrink_auto_columns`, layout.rs:1522-1552).  The final
clamp writes `fair` into every overlarge auto column; the written value
is always a `some`, since the loop runs at least once whenever an auto
column exists. -/
def shrinkAutoColumns (cols : List Sizing) (rcols : List ℚ)
    (available : ℚ) (count : ℕ) : List ℚ :=
  let fair := shrinkLoop cols rcols (count + 2) true none available count
  List.zipWith
    (fun col rcol =>
      if col = Sizing.auto ∧ ltLast fair rcol then fair.getD 0 else rcol)
    cols rcols

/-- Determine all column sizes and the total grid width
(`GridLayouter::measure_columns`, layout.rs:1330-1372): resolve relative
tracks, measure auto columns when the region has space left, then grow
fractional columns or shrink auto columns; the width is the sum of all
resolved columns.  The `.inf` fallback in the shrink branch is
unreachable: an infinite `available` yields an infinite, nonnegative
remainder. -/
def measureColumns (g : Grid) (cm : ColMeasure) (regionX baseY : XAbs) :
    List ℚ × ℚ :=
  let rcols0 := initialRcols g.cols
  let rel := relSum g.cols
  let frTot := frSum g.cols
  let available := regionX.subQ rel
  let rcols :=
    if available.nonneg then
      let m := measureAutoCols g cm rcols0 available regionX baseY
      let remaining := available.subQ m.2.1
      if remaining.nonneg then growFractionalColumns g.cols m.1 remaining frTot
      else
        match available with
        | .fin a => shrinkAutoColumns g.cols m.1 a m.2.2
        | .inf => m.1
    else rcols0
  (rcols, rcols.sum)

/-! ## Claim C3: the column sum invariant of `measure_columns` -/

/-- Invariants of `measure_auto_columns`: lengths are preserved,
non-auto columns are untouched, unprocessed auto columns stay at zero,
and the returned auto total equals the increase of the column sum
(provided auto columns start at zero, as they do after the relative
phase). -/
theorem measureAutoCols_fold_invariant (g : Grid) (cm : ColMeasure)
    (rcols : List ℚ) (available regionX baseY : XAbs)
    (hlen : rcols.length = g.cols.length)
    (h0 : ∀ i, g.cols.get? i = some .auto → rcols.get? i = some 0) :
    ∀ k, k ≤ g.cols.length →
      ((List.range k).foldl (measureAutoColsStep g cm available regionX baseY)
          (rcols, 0, 0)).1.length = g.cols.length ∧
      (∀ i, k ≤ i → g.cols.get? i = some .auto →
        ((List.range k).foldl (measureAutoColsStep g cm available regionX baseY)
          (rcols, 0, 0)).1.get? i = some 0) ∧
      (∀ i s, g.cols.get? i = some s → s ≠ .auto →
        ((List.range k).foldl (measureAutoColsStep g cm available regionX baseY)
          (rcols, 0, 0)).1.get? i = rcols.get? i) ∧
      ((List.range k).foldl (measureAutoColsStep g cm available regionX baseY)
          (rcols, 0, 0)).1.sum =
        rcols.sum +
          ((List.range k).foldl (measureAutoColsStep g cm available regionX baseY)
            (rcols, 0, 0)).2.1 := by
  intro k
  induction k with
  | zero =>
      intro _
      exact ⟨hlen, fun i _ hi => h0 i hi, fun i s _ _ => rfl, by simp⟩
  | succ m ih =>
      intro hm
      obtain ⟨ih1, ih2, ih3, ih4⟩ := ih (by omega)
      rw [List.range_succ, List.foldl_append]
      set st := (List.range m).foldl (measureAutoColsStep g cm available regionX baseY)
        (rcols, 0, 0) with hst
      simp only [List.foldl_cons, List.foldl_nil]
      by_cases hauto : g.cols.getD m .auto = .auto
      · have hmlt : m < g.cols.length := by omega
        have hget : g.cols.get? m = some .auto := by
          rw [List.get?_eq_getElem?, List.getElem?_eq_getElem hmlt]
          rw [List.getD_eq_getElem?_getD, List.getElem?_eq_getElem hmlt] at hauto
          simp at hauto
          simp [hauto]
        have hold : st.1.get? m = some 0 := ih2 m (le_refl m) hget
        have hmlen : m < st.1.length := by rw [ih1]; exact hmlt
        have hstep : measureAutoColsStep g cm available regionX baseY st m =
            (st.1.set m (measureAutoCol g cm st.1 available regionX baseY m),
             st.2.1 + measureAutoCol g cm st.1 available regionX baseY m,
             st.2.2 + 1) := by
          unfold measureAutoColsStep
          rw [if_neg (not_not_intro hauto)]
        rw [hstep]
        set res := measureAutoCol g cm st.1 available regionX baseY m with hres
        refine ⟨by simpa using ih1, ?_, ?_, ?_⟩
        · intro i hi hgi
          rw [List.get?_eq_getElem?, List.getElem?_set_ne (by omega)]
          rw [← List.get?_eq_getElem?]
          exact ih2 i (by omega) hgi
        · intro i s hgi hsne
          have hine : i ≠ m := by
            intro he
            subst he
            rw [hget] at hgi
            injection hgi with h2
            exact hsne h2.symm
          rw [List.get?_eq_getElem?, List.getElem?_set_ne (fun he => hine he.symm)]
          rw [← List.get?_eq_getElem?]
          exact ih3 i s hgi hsne
        · have hv : st.1[m] = 0 := by
            have := hold
            rw [List.get?_eq_getElem?, List.getElem?_eq_getElem hmlen] at this
            injection this
          rw [List.sum_set']
          rw [dif_pos hmlen, hv]
          rw [ih4]
          ring
      · have hstep : measureAutoColsStep g cm available regionX baseY st m = st := by
          unfold measureAutoColsStep
          rw [if_pos hauto]
        rw [hstep]
        exact ⟨ih1, fun i hi hgi => ih2 i (by omega) hgi, ih3, ih4⟩

/-- The headline invariants of `measure_auto_columns`, at the full
column range. -/
theorem measureAutoCols_invariant (g : Grid) (cm : ColMeasure)
    (rcols : List ℚ) (available regionX baseY : XAbs)
    (hlen : rcols.length = g.cols.length)
    (h0 : ∀ i, g.cols.get? i = some .auto → rcols.get? i = some 0) :
    (measureAutoCols g cm rcols available regionX baseY).1.length = g.cols.length ∧
    (∀ i s, g.cols.get? i = some s → s ≠ .auto →
      (measureAutoCols g cm rcols available regionX baseY).1.get? i = rcols.get? i) ∧
    (measureAutoCols g cm rcols available regionX baseY).1.sum =
      rcols.sum + (measureAutoCols g cm rcols available regionX baseY).2.1 := by
  obtain ⟨h1, _, h3, h4⟩ := measureAutoCols_fold_invariant g cm rcols available regionX
    baseY hlen h0 g.cols.length (le_refl _)
  exact ⟨h1, h3, h4⟩

/-- Summing the grown columns: when the total fraction is nonzero and
fractional columns hold zero before growing, the grown sum is the old
sum plus `frSum cols / frTot * r`. -/
theorem growFractional_sum (frTot r : ℚ) (hT : frTot ≠ 0) :
    ∀ (cols : List Sizing) (rcols : List ℚ), cols.length = rcols.length →
      (∀ p ∈ cols.zip rcols, ∀ v, p.1 = Sizing.fr v → p.2 = 0) →
      (List.zipWith
        (fun col rcol => match col with
          | Sizing.fr v => frShare v frTot (.fin r)
          | _ => rcol) cols rcols).sum = rcols.sum + frSum cols / frTot * r := by
  intro cols
  induction cols with
  | nil =>
      intro rcols hlen _
      have : rcols = [] := List.eq_nil_of_length_eq_zero hlen.symm
      subst this
      simp [frSum]
  | cons c rest ih =>
      intro rcols hlen hz
      cases rcols with
      | nil => simp at hlen
      | cons r0 rs =>
          have hrest := ih rs (by simpa using hlen)
            (fun p hp v hv => hz p (List.mem_cons_of_mem _ hp) v hv)
          have hfr : frSum (c :: rest) = frOf c + frSum rest := by
            simp [frSum]
          cases c with
          | auto =>
              simp only [List.zipWith_cons_cons, List.sum_cons, hrest, hfr]
              simp [frOf]
              ring
          | rel v =>
              simp only [List.zipWith_cons_cons, List.sum_cons, hrest, hfr]
              simp [frOf]
              ring
          | fr v =>
              have hr0 : r0 = 0 := hz (Sizing.fr v, r0) (by simp [List.zip_cons_cons]) v rfl
              simp only [List.zipWith_cons_cons, List.sum_cons, hrest, hfr]
              simp [frOf, frShare, hT, hr0]
              ring

/-- Positional lookup in a zip. -/
theorem zip_get?_mem {α β : Type} (as : List α) (bs : List β) (p : α × β)
    (hp : p ∈ as.zip bs) : ∃ i, as.get? i = some p.1 ∧ bs.get? i = some p.2 := by
  obtain ⟨i, hi⟩ := List.get_of_mem hp
  have hlen := i.2
  simp only [List.length_zip, lt_min_iff] at hlen
  have h1 : i.1 < as.length := hlen.1
  have h2 : i.1 < bs.length := hlen.2
  have hz : p = (as.get ⟨i.1, h1⟩, bs.get ⟨i.1, h2⟩) := by
    rw [← hi]
    simp [List.get_eq_getElem, List.getElem_zip]
  refine ⟨i.1, ?_, ?_⟩
  · rw [List.get?_eq_getElem?, List.getElem?_eq_getElem h1, hz]
    simp [List.get_eq_getElem]
  · rw [List.get?_eq_getElem?, List.getElem?_eq_getElem h2, hz]
    simp [List.get_eq_getElem]

/-- Reduction of `measure_columns` to the growing branch under the
sufficient-space hypotheses. -/
theorem measureColumns_grow_branch (g : Grid) (cm : ColMeasure) (baseY : XAbs)
    (w : ℚ) (hrel : relSum g.cols ≤ w)
    (hauto : (measureAutoCols g cm (initialRcols g.cols)
        (.fin (w - relSum g.cols)) (.fin w) baseY).2.1 ≤ w - relSum g.cols) :
    (measureColumns g cm (.fin w) baseY).1 =
      growFractionalColumns g.cols
        (measureAutoCols g cm (initialRcols g.cols)
          (.fin (w - relSum g.cols)) (.fin w) baseY).1
        (.fin (w - relSum g.cols -
          (measureAutoCols g cm (initialRcols g.cols)
            (.fin (w - relSum g.cols)) (.fin w) baseY).2.1))
        (frSum g.cols) := by
  simp only [measureColumns, XAbs.subQ]
  rw [if_pos (by simp only [XAbs.nonneg, decide_eq_true_eq]; linarith)]
  rw [if_pos (by simp only [XAbs.subQ, XAbs.nonneg, decide_eq_true_eq]; linarith)]

/-- The auto columns of the first-phase `rcols` start at zero. -/
theorem initialRcols_auto_zero (g : Grid) :
    ∀ i, g.cols.get? i = some .auto → (initialRcols g.cols).get? i = some 0 := by
  intro i hi
  rw [List.get?_eq_getElem?] at hi
  simp only [initialRcols, List.get?_eq_getElem?, List.getElem?_map, hi]
  rfl

/-- The fractional columns of `rcols` are still zero after auto
measurement. -/
theorem measureAutoCols_fr_zero (g : Grid) (cm : ColMeasure) (baseY : XAbs)
    (w : ℚ) :
    ∀ p ∈ g.cols.zip (measureAutoCols g cm (initialRcols g.cols)
        (.fin (w - relSum g.cols)) (.fin w) baseY).1,
      ∀ v, p.1 = Sizing.fr v → p.2 = 0 := by
  obtain ⟨hl1, hl2, hl3⟩ := measureAutoCols_invariant g cm (initialRcols g.cols)
    (.fin (w - relSum g.cols)) (.fin w) baseY (by simp [initialRcols])
    (initialRcols_auto_zero g)
  intro p hp v hv
  obtain ⟨i, hci, hri⟩ := zip_get?_mem _ _ p hp
  rw [hv] at hci
  have hsame := hl2 i (Sizing.fr v) hci (by simp)
  rw [hri] at hsame
  rw [List.get?_eq_getElem?] at hci
  simp only [initialRcols, List.get?_eq_getElem?, List.getElem?_map, hci] at hsame
  simpa [relSizeOf] using hsame

/-- Claim C3.  The grid width computed by `measure_columns` is always
the sum of the resolved column sizes; and when the region width is
finite and there is sufficient space (the relative columns fit, and the
measured auto columns fit in what remains), the sum of the resolved
columns does not exceed the region width. -/
theorem measure_columns_width (g : Grid) (cm : ColMeasure) (regionX baseY : XAbs) :
    (measureColumns g cm regionX baseY).2 =
      (measureColumns g cm regionX baseY).1.sum ∧
    (∀ w : ℚ, regionX = .fin w → relSum g.cols ≤ w →
       (measureAutoCols g cm (initialRcols g.cols)
           (.fin (w - relSum g.cols)) regionX baseY).2.1 ≤ w - relSum g.cols →
       (measureColumns g cm regionX baseY).1.sum ≤ w) := by
  constructor
  · rfl
  · intro w hw hrel hauto
    subst hw
    obtain ⟨hl1, hl2, hl3⟩ := measureAutoCols_invariant g cm (initialRcols g.cols)
      (.fin (w - relSum g.cols)) (.fin w) baseY (by simp [initialRcols])
      (initialRcols_auto_zero g)
    rw [measureColumns_grow_branch g cm baseY w hrel hauto]
    have hsum0 : (initialRcols g.cols).sum = relSum g.cols := rfl
    by_cases hT : frSum g.cols = 0
    · rw [growFractionalColumns, if_pos hT]
      rw [hl3, hsum0]
      linarith
    · rw [growFractionalColumns, if_neg hT]
      rw [growFractional_sum (frSum g.cols)
        (w - relSum g.cols -
          (measureAutoCols g cm (initialRcols g.cols)
            (.fin (w - relSum g.cols)) (.fin w) baseY).2.1) hT g.cols _ hl1.symm
        (measureAutoCols_fr_zero g cm baseY w)]
      rw [hl3, hsum0, div_self hT]
      linarith

/-- Concrete check of C3 at a fractional two-column grid in a 100pt
region. -/
theorem measure_columns_width_check :
    (measureColumns ⟨[.rel 10, .fr 1], [], [], false⟩ (fun _ _ _ _ => 0)
      (.fin 100) .inf).1.sum ≤ 100 :=
  (measure_columns_width ⟨[.rel 10, .fr 1], [], [], false⟩ (fun _ _ _ _ => 0)
    (.fin 100) .inf).2 100 rfl (by norm_num [relSum, relSizeOf])
    (by
      simp only [measureAutoCols, measureAutoColsStep, relSum, relSizeOf,
        initialRcols, List.map_cons, List.map_nil, List.sum_cons, List.sum_nil,
        List.getD_cons_zero, List.getD_cons_succ,
        show List.range ([Sizing.rel 10, Sizing.fr 1] : List Sizing).length
          = [0, 1] from rfl, List.foldl_cons, List.foldl_nil]
      simp
      norm_num)

/-- Claim C4.  When the available space and the remainder are
nonnegative and the total fraction is positive, every fractional column
resolves to exactly `fr_i / sum_fr * remainder` (the rational model is
exact, subsuming the one-ULP allowance); in particular the columns
`(10pt, 1fr, 2fr)` in a 100pt region resolve to `(10pt, 30pt, 60pt)`
for every measurement oracle. -/
theorem fractional_share_rules (g : Grid) (cm : ColMeasure) (baseY : XAbs) :
    (∀ w : ℚ, relSum g.cols ≤ w →
       (measureAutoCols g cm (initialRcols g.cols)
           (.fin (w - relSum g.cols)) (.fin w) baseY).2.1 ≤ w - relSum g.cols →
       0 < frSum g.cols →
       ∀ i v, g.cols.get? i = some (.fr v) →
         (measureColumns g cm (.fin w) baseY).1.get? i =
           some (v / frSum g.cols *
             (w - relSum g.cols -
               (measureAutoCols g cm (initialRcols g.cols)
                 (.fin (w - relSum g.cols)) (.fin w) baseY).2.1))) ∧
    (∀ (cm2 : ColMeasure) (baseY2 : XAbs),
       (measureColumns
         ⟨[.rel 10, .fr 1, .fr 2], [.auto],
          [.cell ⟨1, 1, true⟩, .cell ⟨1, 1, true⟩, .cell ⟨1, 1, true⟩], false⟩
         cm2 (.fin 100) baseY2).1 = [10, 30, 60]) := by
  constructor
  · intro w hrel hauto hfr i v hi
    obtain ⟨hl1, hl2, hl3⟩ := measureAutoCols_invariant g cm (initialRcols g.cols)
      (.fin (w - relSum g.cols)) (.fin w) baseY (by simp [initialRcols])
      (initialRcols_auto_zero g)
    rw [measureColumns_grow_branch g cm baseY w hrel hauto]
    rw [growFractionalColumns, if_neg (by linarith)]
    rw [List.get?_zipWith']
    rw [hi]
    have hlt : i < g.cols.length := by
      by_contra hcon
      rw [List.get?_eq_getElem?, List.getElem?_eq_none (by omega)] at hi
      exact Option.noConfusion hi
    have hmi : ∃ q, (measureAutoCols g cm (initialRcols g.cols)
        (.fin (w - relSum g.cols)) (.fin w) baseY).1.get? i = some q := by
      rw [List.get?_eq_getElem?, List.getElem?_eq_getElem (by rw [hl1]; omega)]
      exact ⟨_, rfl⟩
    obtain ⟨q, hq⟩ := hmi
    rw [hq]
    simp [frShare, ne_of_gt (a := frSum g.cols) hfr]
  · intro cm2 baseY2
    simp only [measureColumns, XAbs.subQ, measureAutoCols, measureAutoColsStep,
      initialRcols, relSum, relSizeOf, List.map_cons, List.map_nil, List.sum_cons,
      List.sum_nil, List.getD_cons_zero, List.getD_cons_succ,
      show List.range ([Sizing.rel 10, Sizing.fr 1, Sizing.fr 2] : List Sizing).length
        = [0, 1, 2] from rfl, List.foldl_cons, List.foldl_nil]
    simp
    norm_num [growFractionalColumns, frSum, frOf, frShare, XAbs.nonneg]

/-- Concrete check of C4 on the `(10pt, 1fr, 2fr)` scenario. -/
theorem fractional_share_rules_check :
    (measureColumns
      ⟨[.rel 10, .fr 1, .fr 2], [.auto],
       [.cell ⟨1, 1, true⟩, .cell ⟨1, 1, true⟩, .cell ⟨1, 1, true⟩], false⟩
      (fun _ _ _ _ => 0) (.fin 100) .inf).1.get? 1 =
      some (1 / frSum [.rel 10, .fr 1, .fr 2] *
        (100 - relSum [.rel 10, .fr 1, .fr 2] -
          (measureAutoCols
            ⟨[.rel 10, .fr 1, .fr 2], [.auto],
             [.cell ⟨1, 1, true⟩, .cell ⟨1, 1, true⟩, .cell ⟨1, 1, true⟩], false⟩
            (fun _ _ _ _ => 0)
            (initialRcols [.rel 10, .fr 1, .fr 2])
            (.fin (100 - relSum [.rel 10, .fr 1, .fr 2])) (.fin 100) .inf).2.1)) :=
  (fractional_share_rules
    ⟨[.rel 10, .fr 1, .fr 2], [.auto],
     [.cell ⟨1, 1, true⟩, .cell ⟨1, 1, true⟩, .cell ⟨1, 1, true⟩], false⟩
    (fun _ _ _ _ => 0) .inf).1 100
    (by norm_num [relSum, relSizeOf])
    (by
      simp only [measureAutoCols, measureAutoColsStep, relSum, relSizeOf,
        initialRcols, List.map_cons, List.map_nil, List.sum_cons, List.sum_nil,
        List.getD_cons_zero, List.getD_cons_succ,
        show List.range
            ([Sizing.rel 10, Sizing.fr 1, Sizing.fr 2] : List Sizing).length
          = [0, 1, 2] from rfl, List.foldl_cons, List.foldl_nil]
      simp
      norm_num)
    (by norm_num [frSum, frOf]) 1 1 rfl

/-! ## Claim C5: the fair-share shrinking of auto columns -/

/-- The sizes of the auto columns removed from the pool by one pass of
the shrinking loop: those at most `fair` but above the previous fair
value. -/
def removedSizes (cols : List Sizing) (rcols : List ℚ) (last : Option ℚ)
    (fair : ℚ) : List ℚ :=
  ((cols.zip rcols).filter
    (fun p => p.1 = Sizing.auto ∧ p.2 ≤ fair ∧ ltLast last p.2)).map (·.2)

/-- One shrinking pass over any zipped column list, with a general
accumulator. -/
theorem shrinkPass_fold (fair : ℚ) (last : Option ℚ) :
    ∀ (l : List (Sizing × ℚ)) (r : ℚ) (o : ℕ) (b : Bool),
      l.foldl
        (fun st p =>
          if p.1 = Sizing.auto ∧ p.2 ≤ fair ∧ ltLast last p.2 then
            (st.1 - p.2, st.2.1 - 1, true)
          else st) (r, o, b) =
      (r - ((l.filter
          (fun p => p.1 = Sizing.auto ∧ p.2 ≤ fair ∧ ltLast last p.2)).map (·.2)).sum,
       o - (l.filter
          (fun p => p.1 = Sizing.auto ∧ p.2 ≤ fair ∧ ltLast last p.2)).length,
       b || !(l.filter
          (fun p => p.1 = Sizing.auto ∧ p.2 ≤ fair ∧ ltLast last p.2)).isEmpty) := by
  intro l
  induction l with
  | nil =>
      intro r o b
      simp
  | cons p t ih =>
      intro r o b
      by_cases hc : p.1 = Sizing.auto ∧ p.2 ≤ fair ∧ ltLast last p.2
      · rw [List.foldl_cons, if_pos hc, ih,
          List.filter_cons_of_pos (by simpa using hc)]
        refine congrArg₂ Prod.mk (by simp; ring) (congrArg₂ Prod.mk ?_ ?_)
        · simp only [List.length_cons]
          omega
        · simp
      · rw [List.foldl_cons, if_neg hc, ih,
          List.filter_cons_of_neg (by simpa using hc)]

/-- Claim C5.  `shrink_auto_columns` performs the fair-share algorithm:
each pass removes from the pool exactly the auto columns whose size is
at most the current `fair` and greater than the previous fair value,
deducting their sizes from `redistribute`; the loop stops as soon as a
pass removes nothing (or the pool empties); and the final clamp caps
every auto column at the final fair value (so an auto column becomes
`min` of its size and `fair`) while every other column keeps its size. -/
theorem shrink_auto_columns_fair_share (cols : List Sizing) (rcols : List ℚ)
    (available : ℚ) (count : ℕ) :
    (∀ fair last redistribute overlarge,
       shrinkPass cols rcols fair last redistribute overlarge =
         (redistribute - (removedSizes cols rcols last fair).sum,
          overlarge - (removedSizes cols rcols last fair).length,
          !(removedSizes cols rcols last fair).isEmpty)) ∧
    (∀ fuel fair redistribute overlarge,
       shrinkLoop cols rcols (fuel + 1) false fair redistribute overlarge = fair) ∧
    (∀ fuel changed fair redistribute,
       shrinkLoop cols rcols (fuel + 1) changed fair redistribute 0 = fair) ∧
    (∀ fairQ,
       shrinkLoop cols rcols (count + 2) true none available count = some fairQ →
       (∀ i v, cols.get? i = some .auto → rcols.get? i = some v →
          (shrinkAutoColumns cols rcols available count).get? i =
            some (min v fairQ)) ∧
       (∀ i s v, cols.get? i = some s → s ≠ .auto → rcols.get? i = some v →
          (shrinkAutoColumns cols rcols available count).get? i = some v)) := by
  refine ⟨?_, ?_, ?_, ?_⟩
  · intro fair last redistribute overlarge
    unfold shrinkPass removedSizes
    rw [shrinkPass_fold fair last (cols.zip rcols) redistribute overlarge false]
    have hemp : ∀ (l : List (Sizing × ℚ)), (l.map (fun x => x.2)).isEmpty = l.isEmpty := by
      intro l
      cases l <;> rfl
    simp [List.length_map, hemp]
  · intro fuel fair redistribute overlarge
    rfl
  · intro fuel changed fair redistribute
    cases changed <;> rfl
  · intro fairQ hfair
    have hres : shrinkAutoColumns cols rcols available count =
        List.zipWith
          (fun col rcol =>
            if col = Sizing.auto ∧ ltLast (some fairQ) rcol then fairQ else rcol)
          cols rcols := by
      unfold shrinkAutoColumns
      rw [hfair]
      rfl
    constructor
    · intro i v hci hri
      rw [hres, List.get?_zipWith', hci, hri]
      show some (if Sizing.auto = Sizing.auto ∧ ltLast (some fairQ) v then fairQ
        else v) = some (min v fairQ)
      by_cases hv : fairQ < v
      · rw [if_pos ⟨rfl, by simp [ltLast, hv]⟩, min_eq_right (le_of_lt hv)]
      · have hcond : ¬(Sizing.auto = Sizing.auto ∧ ltLast (some fairQ) v = true) := by
          simp [ltLast, hv]
        rw [if_neg hcond, min_eq_left (le_of_not_lt hv)]
    · intro i s v hci hsne hri
      rw [hres, List.get?_zipWith', hci, hri]
      show some (if s = Sizing.auto ∧ ltLast (some fairQ) v then fairQ else v) =
        some v
      rw [if_neg (by intro hcon; exact hsne hcon.1)]

/-- A relative track is never the auto track. -/
theorem sizing_rel_ne_auto (v : ℚ) : (Sizing.rel v = Sizing.auto) = False := by
  simp

/-- A fractional track is never the auto track. -/
theorem sizing_fr_ne_auto (v : ℚ) : (Sizing.fr v = Sizing.auto) = False := by
  simp

/-- Concrete check of the C5 fair-share clamp on two columns with one
overlarge auto column. -/
theorem shrink_auto_columns_fair_share_check :
    (shrinkAutoColumns [Sizing.auto, Sizing.rel 10] [50, 10] 40 1).get? 0 =
      some (min 50 40) ∧
    (shrinkAutoColumns [Sizing.auto, Sizing.rel 10] [50, 10] 40 1).get? 1 =
      some 10 := by
  have hfair : shrinkLoop [Sizing.auto, Sizing.rel 10] [50, 10] (1 + 2) true none
      40 1 = some 40 := by
    show shrinkLoop [Sizing.auto, Sizing.rel 10] [50, 10] (2 + 1) true none 40 1 =
      some 40
    rw [shrinkLoop]
    norm_num [shrinkPass, ltLast, List.zip_cons_cons, List.foldl_cons,
      List.foldl_nil, sizing_rel_ne_auto, shrinkLoop,
      show (2 : ℕ) = 1 + 1 from rfl]
  obtain ⟨hA, hB⟩ :=
    (shrink_auto_columns_fair_share [Sizing.auto, Sizing.rel 10] [50, 10] 40
      1).2.2.2 40 hfair
  exact ⟨hA 0 50 rfl rfl, hB 1 (Sizing.rel 10) 10 rfl (by decide) rfl⟩

/-! ## Claim C6: the colspan heuristic of auto column measurement -/

/-- Claim C6.  A cell caught by the colspan heuristic (it spans more
than one track, all fractional columns of the grid, and the region
width is finite) contributes nothing to auto column measurement: the
result of `measure_auto_columns` is independent of the measurement of
such cells; and in the one-auto-one-fractional scenario with a single
colspan-2 cell in a 100pt region, the auto column resolves to 0pt (and
the fractional column takes the whole width) for every measurement
oracle. -/
theorem colspan_heuristic_rules :
    (∀ (g : Grid) (cm cm2 : ColMeasure) (rcols : List ℚ)
       (available regionX baseY : XAbs),
       (∀ px py a h, colspanHeuristic g regionX px py = false →
          cm px py a h = cm2 px py a h) →
       measureAutoCols g cm rcols available regionX baseY =
         measureAutoCols g cm2 rcols available regionX baseY) ∧
    (∀ (cm : ColMeasure) (baseY : XAbs),
       (measureColumns ⟨[.auto, .fr 1], [.auto], [.cell ⟨2, 1, true⟩], false⟩
         cm (.fin 100) baseY).1 = [0, 100]) := by
  constructor
  · intro g cm cm2 rcols available regionX baseY hagree
    have hcell : ∀ (rc : List ℚ) (x : ℕ) (res : ℚ) (y : ℕ),
        autoColumnCell g cm rc available regionX baseY x res y =
        autoColumnCell g cm2 rc available regionX baseY x res y := by
      intro rc x res y
      unfold autoColumnCell
      cases hpp : g.parentCellPosition x y with
      | none => rfl
      | some p =>
          obtain ⟨px, py⟩ := p
          dsimp only
          by_cases hpy : py = y
          · simp only [if_neg (not_not_intro hpy)]
            cases hc : g.cellAt px py with
            | none => rfl
            | some cell =>
                dsimp only
                by_cases h1 : 1 < g.effColspan cell ∧
                    lastSpannedAutoCol g.cols px (g.effColspan cell) ≠ some x
                · simp only [if_pos h1]
                · simp only [if_neg h1]
                  by_cases h2 : colspanHeuristic g regionX px py = true
                  · simp only [if_pos h2]
                  · simp only [if_neg h2]
                    rw [hagree px py available
                      (spannedRelHeight g.rows y (g.effRowspan cell) baseY)
                      (Bool.eq_false_iff.mpr h2)]
          · simp only [if_pos hpy]
    have hstep : measureAutoColsStep g cm available regionX baseY =
        measureAutoColsStep g cm2 available regionX baseY := by
      funext st x
      unfold measureAutoColsStep
      by_cases h : g.cols.getD x .auto ≠ .auto
      · rw [if_pos h, if_pos h]
      · rw [if_neg h, if_neg h]
        have hf : autoColumnCell g cm st.1 available regionX baseY x =
            autoColumnCell g cm2 st.1 available regionX baseY x := by
          funext res y
          exact hcell st.1 x res y
        unfold measureAutoCol
        rw [hf]
    unfold measureAutoCols
    rw [hstep]
  · intro cm baseY
    simp only [measureColumns, XAbs.subQ, measureAutoCols, measureAutoColsStep,
      initialRcols, relSum, relSizeOf, List.map_cons, List.map_nil, List.sum_cons,
      List.sum_nil, List.getD_cons_zero, List.getD_cons_succ,
      show List.range ([Sizing.auto, Sizing.fr 1] : List Sizing).length
        = [0, 1] from rfl,
      show List.range ([Sizing.auto] : List Sizing).length = [0] from rfl,
      show ([Sizing.auto, Sizing.fr 1] : List Sizing).enum
        = [(0, Sizing.auto), (1, Sizing.fr 1)] from rfl,
      List.foldl_cons, List.foldl_nil, measureAutoCol, autoColumnCell,
      Grid.parentCellPosition, Grid.entry, Grid.cellAt, GEntry.asCell,
      Grid.effColspan, Grid.effRowspan, lastSpannedAutoCol, colspanHeuristic,
      fracCols, cellSpannedWidth, spannedRelHeight, tryRelHeights, XAbs.finite]
    simp
    norm_num [growFractionalColumns, frSum, frOf, frShare, XAbs.nonneg]

/-- Concrete check of C6: two oracles that differ only on the
heuristic-skipped cell measure auto columns identically. -/
theorem colspan_heuristic_rules_check :
    measureAutoCols ⟨[.auto, .fr 1], [.auto], [.cell ⟨2, 1, true⟩], false⟩
      (fun px py _ _ => if px = 0 ∧ py = 0 then 50 else 0) [0, 0]
      (.fin 100) (.fin 100) .inf =
    measureAutoCols ⟨[.auto, .fr 1], [.auto], [.cell ⟨2, 1, true⟩], false⟩
      (fun px py _ _ => if px = 0 ∧ py = 0 then 7 else 0) [0, 0]
      (.fin 100) (.fin 100) .inf := by
  refine colspan_heuristic_rules.1 _ _ _ _ _ _ _ ?_
  intro px py a h hfalse
  by_cases hp : px = 0 ∧ py = 0
  · obtain ⟨h0, h1⟩ := hp
    subst h0
    subst h1
    rw [show colspanHeuristic
        ⟨[.auto, .fr 1], [.auto], [.cell ⟨2, 1, true⟩], false⟩
        (.fin 100) 0 0 = true by decide] at hfalse
    exact Bool.noConfusion hfalse
  · simp [hp]

/-! ## The row layout engine (`GridLayouter`, layout.rs:934-2170)

Cell bodies are opaque; their measurement is an oracle returning the
frames (height and emptiness) produced in the regions of the pod it is
handed.  Row frames are represented by their heights: cell content
placed inside a row frame never changes the frame's size, and the
claims below concern only row sequences and frame sizes, so
`layout_rowspans` and `render_fills_strokes` (which only add items to
already-sized finished frames) are omitted.  `Regions` is modelled from
the spec (section 4.1): it lives outside the grid sources. -/

/-- Add a finite length to a possibly infinite one. -/
def XAbs.addQ : XAbs → ℚ → XAbs
  | .fin a, q => .fin (a + q)
  | .inf, _ => .inf

/-- `min` of a finite length and a possibly infinite one
(`Size::min` componentwise). -/
def XAbs.minQ (q : ℚ) : XAbs → ℚ
  | .fin a => min q a
  | .inf => q

/-- Whether a finite length fits into a possibly infinite available
length (`Abs::fits`). -/
def XAbs.fits (avail : XAbs) (h : ℚ) : Bool :=
  match avail with
  | .fin a => decide (h ≤ a)
  | .inf => true

/-- Modelled from the spec (section 4.1): the region stream `Regions`
is not among the grid sources.  It carries the current size, the full
region height, the backlog of upcoming heights and the final repeating
height. -/
structure Reg where
  sizeX : XAbs
  sizeY : XAbs
  full : XAbs
  backlog : List XAbs
  last : Option XAbs
deriving DecidableEq, Repr

/-- Modelled from the spec: advancing past the last region repeats the
last region's height indefinitely. -/
def Reg.next (r : Reg) : Reg :=
  match r.backlog with
  | h :: t => { r with sizeY := h, full := h, backlog := t }
  | [] =>
      match r.last with
      | some l => { r with sizeY := l, full := l }
      | none => r

/-- Modelled from the spec: whether the current region is the last
usable one (the backlog is exhausted and the height already equals the
repeating height, if any). -/
def Reg.inLast (r : Reg) : Bool :=
  r.backlog.isEmpty &&
    (match r.last with
     | none => true
     | some l => decide (r.sizeY = l))

/-- Modelled from the spec: a region is full when no vertical space
remains and a further region exists. -/
def Reg.isFull (r : Reg) : Bool :=
  (match r.sizeY with
   | .fin a => decide (a ≤ 0)
   | .inf => false) && !r.inLast

/-- A measured frame of a cell body: its height and whether it is empty
(`Frame::is_empty`). -/
structure MFrame where
  height : ℚ
  isEmpty : Bool
deriving DecidableEq, Repr

/-- The measurement pod handed to a cell body while measuring an auto
row: its size, full height, backlog, and whether it was forced into a
single region (`Regions::one`). -/
structure Pod where
  sizeX : ℚ
  sizeY : XAbs
  full : XAbs
  backlog : List XAbs
  single : Bool
deriving DecidableEq, Repr

/-- The opaque measurement capability of cell bodies (spec section 6):
given the parent cell's position and a pod, the frames produced. -/
abbrev RowMeasure := ℕ → ℕ → Pod → List MFrame

/-- A row placed in the current region: a finished frame or a deferred
fractional row (`Row`, layout.rs). -/
inductive LRow where
  | frame (height : ℚ) (y : ℕ) : LRow
  | fr (v : ℚ) (y : ℕ) : LRow
deriving DecidableEq, Repr

/-- The track index of a placed row. -/
def LRow.y : LRow → ℕ
  | .frame _ y => y
  | .fr _ y => y

/-- A laid-out row of a finished region (`RowPiece`). -/
structure RowPiece where
  height : ℚ
  y : ℕ
deriving DecidableEq, Repr

/-- A pending rowspan ledger entry (`Rowspan`, spec section 4.7):
position, effective rowspan in tracks, offset in its first region, the
first region index (`none` models the `usize::MAX` sentinel), the first
region's full height, and the accumulated per-region heights. -/
structure RSpan where
  x : ℕ
  y : ℕ
  rowspan : ℕ
  dy : ℚ
  firstRegion : Option ℕ
  regionFull : XAbs
  heights : List ℚ
deriving DecidableEq, Repr

/-- The size of a finished region frame. -/
structure FrameSz where
  w : ℚ
  h : ℚ
deriving DecidableEq, Repr

/-- The layouter state (`GridLayouter`, layout.rs:935-983). -/
structure LS where
  regions : Reg
  rcols : List ℚ
  width : ℚ
  rrows : List (List RowPiece)
  lrows : List LRow
  unbreakableRowsLeft : ℕ
  rowspans : List RSpan
  initialX : XAbs
  initialY : XAbs
  finished : List FrameSz
deriving DecidableEq, Repr

/-- Push a row frame into the current region
(`GridLayouter::push_row`, layout.rs:2077-2080). -/
def pushRow (st : LS) (h : ℚ) (y : ℕ) : LS :=
  { st with
      regions := { st.regions with sizeY := st.regions.sizeY.subQ h },
      lrows := st.lrows ++ [.frame h y] }

/-- Remove the last row of the region if it is a gutter row
(layout.rs:2084-2090). -/
def trimTrailingGutter (g : Grid) (lrows : List LRow) : List LRow :=
  match lrows.getLast? with
  | some r => if g.isGutterTrack r.y then lrows.dropLast else lrows
  | none => lrows

/-- Total height of already-finished row frames in the region
(`used`, layout.rs:2092-2099). -/
def usedOf (lrows : List LRow) : ℚ :=
  (lrows.map (fun r => match r with | .frame h _ => h | .fr _ _ => 0)).sum

/-- Total fraction of deferred fractional rows in the region
(`fr`, layout.rs:2092-2099). -/
def frOfRows (lrows : List LRow) : ℚ :=
  (lrows.map (fun r => match r with | .frame _ _ => 0 | .fr v _ => v)).sum

/-- The size of a finished region frame (layout.rs:2101-2106):
`Size::new(width, used).min(initial)`, with the height overridden by
the full initial height when fractional rows are present and the
initial height is finite. -/
def regionFrameSz (width used : ℚ) (initialX initialY : XAbs) (frTot : ℚ) :
    FrameSz :=
  ⟨XAbs.minQ width initialX,
   match initialY with
   | .fin iy => if 0 < frTot then iy else min used iy
   | .inf => used⟩

/-- Rowspan bookkeeping for one placed row of a finished region
(layout.rs:2127-2157). -/
def updateRowspan (currentRegion : ℕ) (full : XAbs) (posY height : ℚ) (y : ℕ)
    (rs : RSpan) : RSpan :=
  if rs.y ≤ y ∧ y < rs.y + rs.rowspan then
    let rs :=
      if (match rs.firstRegion with
          | none => true
          | some f2 => decide (currentRegion < f2)) then
        { rs with firstRegion := some currentRegion, dy := posY,
                  regionFull := full }
      else rs
    let missing := (currentRegion + 1) - (rs.heights.length + rs.firstRegion.getD 0)
    let heights := rs.heights ++ List.replicate missing 0
    { rs with heights := heights.dropLast ++ [heights.getLast?.getD 0 + height] }
  else rs

/-- Finish the rows of one region
(`GridLayouter::finish_region`, layout.rs:2083-2170): trim a trailing
gutter row, size the region frame, lay out deferred fractional rows
with their share of `full - used`, record the row pieces and rowspan
heights, then advance to the next region. -/
def finishStep (cr : ℕ) (full : XAbs) (frTot : ℚ) (rem : XAbs)
    (acc : List RSpan × ℚ × List RowPiece) (row : LRow) :
    List RSpan × ℚ × List RowPiece :=
  let height := match row with
    | .frame h _ => h
    | .fr v _ => frShare v frTot rem
  (acc.1.map (updateRowspan cr full acc.2.1 height row.y),
   acc.2.1 + height,
   acc.2.2 ++ [(⟨height, row.y⟩ : RowPiece)])

def finishRegion (g : Grid) (st : LS) : LS :=
  let lrows := trimTrailingGutter g st.lrows
  let used := usedOf lrows
  let frTot := frOfRows lrows
  let size := regionFrameSz st.width used st.initialX st.initialY frTot
  let currentRegion := st.finished.length
  let fold := lrows.foldl
    (finishStep currentRegion st.regions.full frTot (st.regions.full.subQ used))
    (st.rowspans, (0 : ℚ), ([] : List RowPiece))
  let regions := st.regions.next
  { st with
      lrows := [],
      rowspans := fold.1,
      rrows := st.rrows ++ [fold.2.2],
      finished := st.finished ++ [size],
      regions := regions,
      initialX := regions.sizeX,
      initialY := regions.sizeY }

/-- The group of unbreakable rows being simulated
(`UnbreakableRowGroup`): its total height and the (row, height) pairs
already simulated; the layouter itself always passes the default empty
group. -/
structure RowGroup where
  height : ℚ
  rows : List (ℕ × ℚ)
deriving DecidableEq, Repr

/-- Front subtraction of already covered height from a list of sizes
(layout.rs:1851-1863): fully covered leading frames are dropped and the
remainder is subtracted from the first surviving frame. -/
def subtractCoveredFront : List ℚ → ℚ → List ℚ
  | [], _ => []
  | h :: t, covered =>
      if 0 < covered ∧ h ≤ covered then subtractCoveredFront t (covered - h)
      else (h - covered) :: t

/-- Modelled from the spec (section 4.6): `subtract_end_sizes` lives in
rowspans.rs, outside the given sources; it trims from the tail the
height upcoming spanned rows will cover, mirroring the front
subtraction. -/
def subtractEndSizes (sizes : List ℚ) (amount : ℚ) : List ℚ :=
  (subtractCoveredFront sizes.reverse amount).reverse

/-- Merge newly measured sizes into the already resolved region sizes:
position-wise maxima, the excess appended (layout.rs:1921-1929). -/
def mergeMax : List ℚ → List ℚ → List ℚ
  | rs, [] => rs
  | [], ss => ss
  | r :: rs, s :: ss => max r s :: mergeMax rs ss

/-- The last auto row spanned by a rowspan starting at row `py`
(layout.rs:1689-1698). -/
def lastSpannedAutoRow (rows : List Sizing) (py rowspan : ℕ) : Option ℕ :=
  (((rows.enum.drop py).take rowspan).reverse.find?
    (fun p => decide (p.2 = Sizing.auto))).map (fun p => p.1)

/-- Height of the rowspan already covered by laid-out spanned rows in
the current region (layout.rs:1708-1721). -/
def laidOutHeight (lrows : List LRow) (py rowspan : ℕ) : ℚ :=
  (lrows.map (fun r =>
    match r with
    | .frame h y => if py ≤ y ∧ y < py + rowspan then h else 0
    | .fr _ _ => 0)).sum

/-- Height of spanned rows of the simulated unbreakable group
(layout.rs:1726-1731). -/
def groupHeight (rows : List (ℕ × ℚ)) (py rowspan : ℕ) : ℚ :=
  (rows.map (fun p => if py ≤ p.1 ∧ p.1 < py + rowspan then p.2 else 0)).sum

/-- Modelled from the spec (section 4.5): `is_unbreakable_cell` lives
in rowspans.rs, outside the given sources; a cell is unbreakable when
its resolved breakability is false. -/
def isUnbreakableCell (c : GCell) : Bool := !c.breakable

/-- Accumulated state of the column loop in `measure_auto_row`:
resolved sizes, pending rowspans awaiting simulation, and whether the
skip-and-remeasure early return fired. -/
structure MAR where
  resolved : List ℚ
  pending : List (ℕ × ℕ × List ℚ)
  skip : Bool
deriving DecidableEq, Repr

/-- One column of the measuring loop of `measure_auto_row`
(layout.rs:1640-1930): gutter and non-parent columns contribute
nothing; a rowspan contributes only at its last spanned auto row, with
its height, backlog and already covered height adjusted from the
rowspan ledger; the cell is measured through the oracle; an empty first
frame with nonempty later frames triggers the skip; rowspans spanning
gutter that do not end here become pending. -/
def measureAutoRowCell (g : Grid) (rm : RowMeasure) (st : LS) (y : ℕ)
    (canSkip unbreakable : Bool) (ubl : ℕ) (rg : RowGroup)
    (acc : MAR) (x : ℕ) : MAR :=
  if acc.skip then acc else
  match g.parentCellPosition x y with
  | none => acc
  | some pxy =>
      if pxy.1 ≠ x then acc else
      match g.cellAt pxy.1 pxy.2 with
      | none => acc
      | some cell =>
        let px := pxy.1
        let py := pxy.2
        let rowspan := g.effRowspan cell
        let info : Option (XAbs × List XAbs × ℚ × ℕ) :=
          if rowspan = 1 then
            some (st.regions.sizeY.subQ rg.height, st.regions.backlog, 0, 0)
          else if lastSpannedAutoRow g.rows py rowspan ≠ some y then none
          else
            let hitr := laidOutHeight st.lrows py rowspan +
              groupHeight rg.rows py rowspan
            match (st.rowspans.find?
                (fun rs => rs.x == px && rs.y == py)).map RSpan.heights with
            | some (h0 :: rest) =>
                some (.fin h0,
                  if unbreakable then rest.map XAbs.fin ++ [st.initialY]
                  else rest.map XAbs.fin ++ [st.initialY] ++ st.regions.backlog,
                  hitr, rest.length + 1)
            | _ => some (st.regions.sizeY.addQ hitr, st.regions.backlog, hitr, 0)
        match info with
        | none => acc
        | some info =>
          let height := info.1
          let backlog := info.2.1
          let hitr := info.2.2.1
          let fipr := info.2.2.2
          let width := cellSpannedWidth st.rcols x (g.effColspan cell)
          let frames :=
            if unbreakable then
              if fipr = 0 then
                [(rm px py ⟨width, height, st.regions.full, [], true⟩).headD
                  ⟨0, true⟩]
              else rm px py ⟨width, height, st.regions.full, backlog, true⟩
            else rm px py ⟨width, height, st.regions.full, backlog, false⟩
          let skipNow : Bool :=
            match frames with
            | first :: rest =>
                canSkip && !unbreakable && first.isEmpty &&
                  rest.any (fun f => !f.isEmpty)
            | [] => false
          if skipNow then { acc with skip := true }
          else
            let sizes := (frames.drop fipr).map MFrame.height
            if rowspan = 1 then
              { acc with resolved := mergeMax acc.resolved sizes }
            else
              let sizes := subtractCoveredFront sizes hitr
              let lastSpannedRow := py + rowspan - 1
              let effUnb := isUnbreakableCell cell ||
                decide (lastSpannedRow < y + ubl)
              if y ≠ lastSpannedRow ∧ sizes ≠ [] ∧ g.hasGutter ∧ effUnb = false
              then { acc with pending := acc.pending ++ [(py, rowspan, sizes)] }
              else
                let willCover :=
                  (((g.rows.drop (y + 1)).take (lastSpannedRow - y)).map
                    relSizeOf).sum
                { acc with
                    resolved := mergeMax acc.resolved
                      (subtractEndSizes sizes willCover) }

/-- The outcome of the pending-rowspan gutter simulation
(`simulate_and_measure_rowspans_in_auto_row`, spec section 4.6): it
lives in rowspans.rs, outside the given sources, so the final resolved
sizes it produces are an oracle parameter of the engine. -/
abbrev SimOracle := ℕ → List ℚ → List (ℕ × ℕ × List ℚ) → ℕ → RowGroup → List ℚ

/-- `GridLayouter::measure_auto_row` (layout.rs:1628-1948): fold the
column loop; `none` exactly when the skip fired; the simulation oracle
refines the result exactly when pending rowspans exist. -/
def measureAutoRow (g : Grid) (rm : RowMeasure) (sim : SimOracle) (st : LS)
    (y : ℕ) (canSkip unbreakable : Bool) (ubl : ℕ) (rg : RowGroup) :
    Option (List ℚ) :=
  let acc := (List.range st.rcols.length).foldl
    (measureAutoRowCell g rm st y canSkip unbreakable ubl rg) ⟨[], [], false⟩
  if acc.skip then none
  else if acc.pending.isEmpty then some acc.resolved
  else some (sim y acc.resolved acc.pending ubl rg)

/-- `target.set_max(region_height)` for a possibly infinite region
height; an infinite region leaves the target unchanged (a frame never
attains infinite height). -/
def setMaxQ (q : ℚ) : XAbs → ℚ
  | .fin a => max q a
  | .inf => q

/-- The stream of region heights from the current one
(`Regions::iter`, modelled from the spec section 4.1), truncated to `n`
entries: current size, then the backlog, then the repeating last
height. -/
def regionHeightsStream (r : Reg) (n : ℕ) : List XAbs :=
  (r.sizeY :: (r.backlog ++
    (match r.last with
     | some l => List.replicate n l
     | none => []))).take n

/-- Expand all but the last resolved height to its region's height,
skipping the first region when a fractional row already claims it
(layout.rs:1596-1606). -/
def expandResolved (r : Reg) (skip : ℕ) (resolved : List ℚ) : List ℚ :=
  let stream := regionHeightsStream r (resolved.length - 1)
  resolved.enum.map (fun p =>
    if skip ≤ p.1 ∧ p.1 + 1 < resolved.length then
      setMaxQ p.2 (stream.getD p.1 .inf)
    else p.2)

/-- Push the multi-region frames of an auto row, finishing the region
between consecutive frames (layout.rs:1608-1616). -/
def pushMulti (g : Grid) (st : LS) (y : ℕ) : List ℚ → LS
  | [] => st
  | [h] => pushRow st h y
  | h :: h2 :: rest => pushMulti g (finishRegion g (pushRow st h y)) y (h2 :: rest)

/-- `GridLayouter::layout_auto_row` (layout.rs:1556-1619): measure with
skipping allowed; on a skip, finish the region and remeasure; an empty
result lays out nothing; a single height becomes one row frame; several
heights are expanded to their regions (minus the last, minus the first
when an fr row claims it) and pushed across regions. -/
def layoutAutoRow (g : Grid) (rm : RowMeasure) (sim : SimOracle) (st : LS)
    (y : ℕ) : LS :=
  let unbreakable := decide (0 < st.unbreakableRowsLeft)
  let first := measureAutoRow g rm sim st y true unbreakable
    st.unbreakableRowsLeft ⟨0, []⟩
  let p : LS × List ℚ :=
    match first with
    | some r => (st, r)
    | none =>
        let st2 := finishRegion g st
        (st2, (measureAutoRow g rm sim st2 y false unbreakable
          st2.unbreakableRowsLeft ⟨0, []⟩).getD [])
  let st := p.1
  match p.2 with
  | [] => st
  | [single] => pushRow st single y
  | r1 :: r2 :: rest =>
      let k := if st.lrows.any (fun r =>
          match r with | .fr _ _ => true | _ => false) then 1 else 0
      pushMulti g st y (expandResolved st.regions k (r1 :: r2 :: rest))

/-- The region-skipping loop of `layout_relative_row`
(layout.rs:1964-1974), with fuel; one finished region consumes one
backlog entry, so the loop always exits within the fuel given to it. -/
def relRowLoop (g : Grid) (st : LS) (y : ℕ) (height : ℚ) : ℕ → LS
  | 0 => pushRow st height y
  | fuel + 1 =>
      if st.unbreakableRowsLeft = 0 ∧ st.regions.sizeY.fits height = false ∧
          st.regions.inLast = false then
        let st := finishRegion g st
        if g.isGutterTrack y then st
        else relRowLoop g st y height fuel
      else pushRow st height y

/-- `GridLayouter::layout_relative_row` (layout.rs:1952-1979): skip to
a fitting region unless in an unbreakable group; a gutter row vanishes
rather than skip several regions. -/
def layoutRelativeRow (g : Grid) (st : LS) (y : ℕ) (v : ℚ) : LS :=
  relRowLoop g st y v (st.regions.backlog.length + 2)

/-- Modelled from the spec (section 4.5 step 3): `check_for_rowspans`
lives in rowspans.rs, outside the given sources; cells with rowspan at
least two starting at row `y` get a ledger entry with their position
and effective rowspan and no region data yet (`usize::MAX` sentinel
modelled as `none`). -/
def checkForRowspans (g : Grid) (st : LS) (y : ℕ) : LS :=
  { st with rowspans := st.rowspans ++
      ((List.range g.cols.length).filterMap (fun x =>
        match g.cellAt x y with
        | some cell =>
            if 2 ≤ cell.rowspan then
              some ⟨x, y, g.effRowspan cell, 0, none, .fin 0, []⟩
            else none
        | none => none)) }

/-- The outcome of the unbreakable-row-group simulation: the number of
rows in the group starting at this row and whether the whole group
fails to fit the current region. -/
abbrev UnbreakableOracle := LS → ℕ → ℕ × Bool

/-- Modelled from the spec (section 4.5 step 4):
`check_for_unbreakable_rows` lives in rowspans.rs, outside the given
sources; on a content row outside any current group, the simulated
group size is recorded, and the region is finished first when the group
does not fit it and a further region exists. -/
def checkUnbreakable (g : Grid) (u : UnbreakableOracle) (st : LS) (y : ℕ) :
    LS :=
  if st.unbreakableRowsLeft = 0 ∧ g.isGutterTrack y = false then
    let r := u st y
    let st := if r.2 ∧ st.regions.inLast = false then finishRegion g st else st
    { st with unbreakableRowsLeft := r.1 }
  else st

/-- One iteration of the main row loop (layout.rs:1023-1048): finish a
full region before a content row, lay out the row unless it is a gutter
row at the top of a region, dispatch on the track sizing, then tick the
unbreakable counter. -/
def layoutRow (g : Grid) (rm : RowMeasure) (sim : SimOracle)
    (u : UnbreakableOracle) (st : LS) (y : ℕ) : LS :=
  let contentRow := g.isGutterTrack y = false
  let st :=
    if st.unbreakableRowsLeft = 0 ∧ st.regions.isFull = true ∧ contentRow then
      finishRegion g st
    else st
  let st :=
    if contentRow ∨ st.lrows ≠ [] then
      let st := checkForRowspans g st y
      let st := checkUnbreakable g u st y
      match g.rows.getD y .auto with
      | .auto => layoutAutoRow g rm sim st y
      | .rel v => layoutRelativeRow g st y v
      | .fr v => { st with lrows := st.lrows ++ [.fr v y] }
    else st
  { st with unbreakableRowsLeft := st.unbreakableRowsLeft - 1 }

/-- `GridLayouter::layout` (layout.rs:1020-1053): measure the columns,
lay out every row, finish the last region.  `layout_rowspans` and
`render_fills_strokes` only place content into the already-sized
finished frames, so they do not appear in the state. -/
def layoutGrid (g : Grid) (cm : ColMeasure) (rm : RowMeasure)
    (sim : SimOracle) (u : UnbreakableOracle) (reg0 : Reg) (baseY : XAbs) :
    LS :=
  let mc := measureColumns g cm reg0.sizeX baseY
  let st0 : LS :=
    ⟨reg0, mc.1, mc.2, [], [], 0, [], reg0.sizeX, reg0.sizeY, []⟩
  finishRegion g
    ((List.range g.rows.length).foldl (layoutRow g rm sim u) st0)

/-! ## C10: the size of a finished region's frame -/

/-- C10 (amended): the frame appended by `finish_region` has width
`min(grid width, initial region width)`; its height is the initial
region height exactly when the trimmed region recorded fractional rows
of positive total fraction and the initial height is finite, and
`min(sum of laid-out row heights, initial region height)` otherwise. -/
theorem finish_region_frame_size (g : Grid) (st : LS) :
    ∃ sz : FrameSz,
      (finishRegion g st).finished = st.finished ++ [sz] ∧
      sz.w = XAbs.minQ st.width st.initialX ∧
      (0 < frOfRows (trimTrailingGutter g st.lrows) ∧
          st.initialY.finite = true →
        XAbs.fin sz.h = st.initialY) ∧
      (¬ (0 < frOfRows (trimTrailingGutter g st.lrows) ∧
          st.initialY.finite = true) →
        sz.h = XAbs.minQ (usedOf (trimTrailingGutter g st.lrows)) st.initialY) := by
  refine ⟨regionFrameSz st.width (usedOf (trimTrailingGutter g st.lrows))
    st.initialX st.initialY (frOfRows (trimTrailingGutter g st.lrows)),
    rfl, rfl, ?_, ?_⟩
  · rintro ⟨hfr, hfin⟩
    cases hy : st.initialY with
    | fin iy =>
        simp only [regionFrameSz, hy, if_pos hfr]
    | inf => rw [hy] at hfin; exact absurd hfin (by simp [XAbs.finite])
  · intro hn
    cases hy : st.initialY with
    | fin iy =>
        have hfr : ¬ 0 < frOfRows (trimTrailingGutter g st.lrows) := by
          intro h
          exact hn ⟨h, by rw [hy]; rfl⟩
        simp only [regionFrameSz, hy, if_neg hfr, XAbs.minQ]
    | inf => simp only [regionFrameSz, hy, XAbs.minQ]

/-- C10 witness: the characterization applied to a concrete state. -/
theorem finish_region_frame_size_check :
    ∃ sz : FrameSz,
      (finishRegion ⟨[], [], [], false⟩
        ⟨⟨.fin 9, .fin 9, .fin 9, [], none⟩, [], 7, [], [.frame 4 0], 0, [],
          .fin 9, .fin 9, []⟩).finished = [] ++ [sz] ∧
      sz.w = XAbs.minQ 7 (.fin 9) ∧
      (0 < frOfRows (trimTrailingGutter ⟨[], [], [], false⟩ [.frame 4 0]) ∧
          XAbs.finite (.fin 9) = true →
        XAbs.fin sz.h = .fin 9) ∧
      (¬ (0 < frOfRows (trimTrailingGutter ⟨[], [], [], false⟩ [.frame 4 0]) ∧
          XAbs.finite (.fin 9) = true) →
        sz.h = XAbs.minQ (usedOf (trimTrailingGutter ⟨[], [], [], false⟩
          [.frame 4 0])) (.fin 9)) :=
  finish_region_frame_size ⟨[], [], [], false⟩
    ⟨⟨.fin 9, .fin 9, .fin 9, [], none⟩, [], 7, [], [.frame 4 0], 0, [],
      .fin 9, .fin 9, []⟩

/-- The grid of the C10 counterexample: one relative column, one
relative row followed by a `0fr` row, no gutter. -/
def gridC10 : Grid :=
  ⟨[.rel 10], [.rel 10, .fr 0], [.cell ⟨1, 1, true⟩, .cell ⟨1, 1, true⟩],
    false⟩

/-- Oracles of the C10 counterexample; the grid has no auto tracks, so
they are never consulted nontrivially. -/
def cm10 : ColMeasure := fun _ _ _ _ => 0

def rm10 : RowMeasure := fun _ _ _ => []

def sim10 : SimOracle := fun _ r _ _ _ => r

def u10 : UnbreakableOracle := fun _ _ => (0, false)

/-- C10 counterexample: a region that recorded a fractional row
(`0fr`) with finite initial height 50 finishes with frame height
`min(used, initial) = 10`, not the initial height 50 — the code
overrides the height only when the total recorded fraction is
positive, not whenever a fractional row was recorded. -/
theorem finish_region_frame_size_cex :
    (layoutGrid gridC10 cm10 rm10 sim10 u10
        ⟨.fin 100, .fin 50, .fin 50, [], none⟩ (.fin 50)).finished =
      [⟨10, 10⟩] ∧
    (layoutGrid gridC10 cm10 rm10 sim10 u10
        ⟨.fin 100, .fin 50, .fin 50, [], none⟩ (.fin 50)).rrows =
      [[⟨10, 0⟩, ⟨0, 1⟩]] ∧
    gridC10.rows.getD 1 .auto = .fr 0 ∧
    (10 : ℚ) ≠ 50 := by
  have hmc : measureColumns gridC10 cm10 (.fin 100) (.fin 50) = ([10], 10) := by
    norm_num [measureColumns, gridC10, cm10, initialRcols, relSum, frSum,
      relSizeOf, frOf, XAbs.subQ, XAbs.nonneg, measureAutoCols,
      measureAutoColsStep, growFractionalColumns, sizing_rel_ne_auto,
      sizing_fr_ne_auto,
      show List.range ([Sizing.rel 10] : List Sizing).length = [0] from rfl,
      show List.range 1 = [0] from rfl]
  have h0 : layoutRow gridC10 rm10 sim10 u10
      ⟨⟨.fin 100, .fin 50, .fin 50, [], none⟩, [10], 10, [], [], 0, [],
        .fin 100, .fin 50, []⟩ 0 =
      ⟨⟨.fin 100, .fin 40, .fin 50, [], none⟩, [10], 10, [], [.frame 10 0],
        0, [], .fin 100, .fin 50, []⟩ := by
    norm_num [layoutRow, gridC10, rm10, sim10, u10, Grid.isGutterTrack,
      Reg.isFull, Reg.inLast, checkForRowspans, Grid.cellAt, Grid.entry,
      GEntry.asCell, checkUnbreakable, layoutRelativeRow, relRowLoop,
      XAbs.fits, pushRow, XAbs.subQ,
      show (2 : ℕ) = 1 + 1 from rfl,
      show List.range ([Sizing.rel 10] : List Sizing).length = [0] from rfl,
      show List.range 1 = [0] from rfl]
  have h1 : layoutRow gridC10 rm10 sim10 u10
      ⟨⟨.fin 100, .fin 40, .fin 50, [], none⟩, [10], 10, [], [.frame 10 0],
        0, [], .fin 100, .fin 50, []⟩ 1 =
      ⟨⟨.fin 100, .fin 40, .fin 50, [], none⟩, [10], 10, [],
        [.frame 10 0, .fr 0 1], 0, [], .fin 100, .fin 50, []⟩ := by
    norm_num [layoutRow, gridC10, rm10, sim10, u10, Grid.isGutterTrack,
      Reg.isFull, Reg.inLast, checkForRowspans, Grid.cellAt, Grid.entry,
      GEntry.asCell, checkUnbreakable,
      show List.range ([Sizing.rel 10] : List Sizing).length = [0] from rfl,
      show List.range 1 = [0] from rfl]
  have hf : finishRegion gridC10
      ⟨⟨.fin 100, .fin 40, .fin 50, [], none⟩, [10], 10, [],
        [.frame 10 0, .fr 0 1], 0, [], .fin 100, .fin 50, []⟩ =
      ⟨⟨.fin 100, .fin 40, .fin 50, [], none⟩, [10], 10,
        [[⟨10, 0⟩, ⟨0, 1⟩]], [], 0, [], .fin 100, .fin 40, [⟨10, 10⟩]⟩ := by
    norm_num [finishRegion, finishStep, gridC10, trimTrailingGutter, Grid.isGutterTrack,
      usedOf, frOfRows, regionFrameSz, updateRowspan, frShare, LRow.y,
      XAbs.subQ, XAbs.minQ, Reg.next]
  have hall : layoutGrid gridC10 cm10 rm10 sim10 u10
      ⟨.fin 100, .fin 50, .fin 50, [], none⟩ (.fin 50) =
      ⟨⟨.fin 100, .fin 40, .fin 50, [], none⟩, [10], 10,
        [[⟨10, 0⟩, ⟨0, 1⟩]], [], 0, [], .fin 100, .fin 40, [⟨10, 10⟩]⟩ := by
    simp only [layoutGrid, hmc,
      show List.range gridC10.rows.length = [0, 1] from rfl,
      List.foldl_cons, List.foldl_nil, h0, h1, hf]
  exact ⟨by rw [hall], by rw [hall], rfl, by norm_num⟩

/-! ## C9: gutter rows at region boundaries -/

/-- The grid of the C9 counterexample (track coordinates, gutter
interleaved): two content columns, three content rows; cell A at
(0,0) with rowspan 3, cell B at (1,0), cell C at (1,1) with rowspan 2. -/
def gridC9 : Grid :=
  ⟨[.rel 10, .rel 0, .rel 10], [.auto, .rel 2, .auto, .rel 2, .auto],
    [.cell ⟨1, 3, true⟩, .cell ⟨1, 1, true⟩, .merged 0, .cell ⟨1, 2, true⟩,
      .merged 0, .merged 3], true⟩

def reg9 : Reg := ⟨.fin 100, .fin 10, .fin 10, [.fin 20], some (.fin 20)⟩

def cm9 : ColMeasure := fun _ _ _ _ => 0

/-- Cell measurements of the C9 counterexample: B needs 6pt, A needs
8pt + 5pt over two regions, C needs 7pt. -/
def rm9 : RowMeasure := fun px py _ =>
  if px = 0 ∧ py = 0 then [⟨8, false⟩, ⟨5, false⟩]
  else if px = 2 ∧ py = 0 then [⟨6, false⟩]
  else [⟨7, false⟩]

def sim9 : SimOracle := fun _ r _ _ _ => r

def u9 : UnbreakableOracle := fun _ _ => (0, false)

set_option maxHeartbeats 4000000 in
/-- C9 counterexample: in the first finished region the laid-out rows
are `[6pt @ y=0, 2pt @ y=1]` — the region ends with the gutter row
`y=1`.  The auto row `y=2` is covered only by rowspans ending at `y=4`,
so it lays out no frame; the trailing gutter `y=3` is trimmed by
`finish_region`, but the gutter `y=1` before the empty auto row
survives as the region's last row. -/
theorem gutter_row_suppression_cex :
    (layoutGrid gridC9 cm9 rm9 sim9 u9 reg9 (.fin 10)).rrows =
      [[⟨6, 0⟩, ⟨2, 1⟩], [⟨7, 4⟩]] ∧
    ((layoutGrid gridC9 cm9 rm9 sim9 u9 reg9 (.fin 10)).rrows.getD 0
      []).getLast? = some ⟨2, 1⟩ ∧
    gridC9.isGutterTrack 1 = true := by
  have hmc : measureColumns gridC9 cm9 (.fin 100) (.fin 10) =
      ([10, 0, 10], 20) := by
    norm_num [measureColumns, gridC9, cm9, initialRcols, relSum, frSum,
      relSizeOf, frOf, XAbs.subQ, XAbs.nonneg, measureAutoCols,
      measureAutoColsStep, growFractionalColumns, sizing_rel_ne_auto,
      show List.range 3 = [0, 1, 2] from rfl]
  have h0 : layoutRow gridC9 rm9 sim9 u9
      ⟨reg9, [10, 0, 10], 20, [], [], 0, [], .fin 100, .fin 10, []⟩ 0 =
      ⟨⟨.fin 100, .fin 4, .fin 10, [.fin 20], some (.fin 20)⟩, [10, 0, 10],
        20, [], [.frame 6 0], 0, [⟨0, 0, 5, 0, none, .fin 0, []⟩], .fin 100,
        .fin 10, []⟩ := by
    norm_num [layoutRow, gridC9, reg9, rm9, sim9, u9, Grid.isGutterTrack,
      Reg.isFull, Reg.inLast, checkForRowspans, Grid.cellAt, Grid.entry,
      GEntry.asCell, Grid.effRowspan, Grid.effColspan, checkUnbreakable,
      layoutAutoRow, measureAutoRow, measureAutoRowCell,
      Grid.parentCellPosition, lastSpannedAutoRow, laidOutHeight, groupHeight,
      mergeMax, subtractCoveredFront, subtractEndSizes, isUnbreakableCell,
      cellSpannedWidth, pushRow, XAbs.subQ, XAbs.addQ, List.find?,
      List.filterMap,
      show List.range 3 = [0, 1, 2] from rfl]
  have h1 : layoutRow gridC9 rm9 sim9 u9
      ⟨⟨.fin 100, .fin 4, .fin 10, [.fin 20], some (.fin 20)⟩, [10, 0, 10],
        20, [], [.frame 6 0], 0, [⟨0, 0, 5, 0, none, .fin 0, []⟩], .fin 100,
        .fin 10, []⟩ 1 =
      ⟨⟨.fin 100, .fin 2, .fin 10, [.fin 20], some (.fin 20)⟩, [10, 0, 10],
        20, [], [.frame 6 0, .frame 2 1], 0, [⟨0, 0, 5, 0, none, .fin 0, []⟩],
        .fin 100, .fin 10, []⟩ := by
    norm_num [layoutRow, gridC9, rm9, sim9, u9, Grid.isGutterTrack,
      Reg.isFull, Reg.inLast, checkForRowspans, Grid.cellAt, Grid.entry,
      GEntry.asCell, checkUnbreakable, layoutRelativeRow, relRowLoop,
      XAbs.fits, pushRow, XAbs.subQ, List.filterMap,
      show (3 : ℕ) = 2 + 1 from rfl,
      show List.range 3 = [0, 1, 2] from rfl]
  have h2 : layoutRow gridC9 rm9 sim9 u9
      ⟨⟨.fin 100, .fin 2, .fin 10, [.fin 20], some (.fin 20)⟩, [10, 0, 10],
        20, [], [.frame 6 0, .frame 2 1], 0, [⟨0, 0, 5, 0, none, .fin 0, []⟩],
        .fin 100, .fin 10, []⟩ 2 =
      ⟨⟨.fin 100, .fin 2, .fin 10, [.fin 20], some (.fin 20)⟩, [10, 0, 10],
        20, [], [.frame 6 0, .frame 2 1], 0,
        [⟨0, 0, 5, 0, none, .fin 0, []⟩, ⟨2, 2, 3, 0, none, .fin 0, []⟩],
        .fin 100, .fin 10, []⟩ := by
    norm_num [layoutRow, gridC9, rm9, sim9, u9, Grid.isGutterTrack,
      Reg.isFull, Reg.inLast, checkForRowspans, Grid.cellAt, Grid.entry,
      GEntry.asCell, Grid.effRowspan, Grid.effColspan, checkUnbreakable,
      layoutAutoRow, measureAutoRow, measureAutoRowCell,
      Grid.parentCellPosition, lastSpannedAutoRow, laidOutHeight, groupHeight,
      mergeMax, subtractCoveredFront, subtractEndSizes, isUnbreakableCell,
      cellSpannedWidth, pushRow, XAbs.subQ, XAbs.addQ, List.find?,
      List.filterMap,
      show List.range 3 = [0, 1, 2] from rfl]
  have h3 : layoutRow gridC9 rm9 sim9 u9
      ⟨⟨.fin 100, .fin 2, .fin 10, [.fin 20], some (.fin 20)⟩, [10, 0, 10],
        20, [], [.frame 6 0, .frame 2 1], 0,
        [⟨0, 0, 5, 0, none, .fin 0, []⟩, ⟨2, 2, 3, 0, none, .fin 0, []⟩],
        .fin 100, .fin 10, []⟩ 3 =
      ⟨⟨.fin 100, .fin 0, .fin 10, [.fin 20], some (.fin 20)⟩, [10, 0, 10],
        20, [], [.frame 6 0, .frame 2 1, .frame 2 3], 0,
        [⟨0, 0, 5, 0, none, .fin 0, []⟩, ⟨2, 2, 3, 0, none, .fin 0, []⟩],
        .fin 100, .fin 10, []⟩ := by
    norm_num [layoutRow, gridC9, rm9, sim9, u9, Grid.isGutterTrack,
      Reg.isFull, Reg.inLast, checkForRowspans, Grid.cellAt, Grid.entry,
      GEntry.asCell, checkUnbreakable, layoutRelativeRow, relRowLoop,
      XAbs.fits, pushRow, XAbs.subQ, List.filterMap,
      show (3 : ℕ) = 2 + 1 from rfl,
      show List.range 3 = [0, 1, 2] from rfl]
    simp
  have h4 : layoutRow gridC9 rm9 sim9 u9
      ⟨⟨.fin 100, .fin 0, .fin 10, [.fin 20], some (.fin 20)⟩, [10, 0, 10],
        20, [], [.frame 6 0, .frame 2 1, .frame 2 3], 0,
        [⟨0, 0, 5, 0, none, .fin 0, []⟩, ⟨2, 2, 3, 0, none, .fin 0, []⟩],
        .fin 100, .fin 10, []⟩ 4 =
      ⟨⟨.fin 100, .fin 13, .fin 20, [], some (.fin 20)⟩, [10, 0, 10], 20,
        [[⟨6, 0⟩, ⟨2, 1⟩]], [.frame 7 4], 0,
        [⟨0, 0, 5, 0, some 0, .fin 10, [8]⟩, ⟨2, 2, 3, 0, none, .fin 0, []⟩],
        .fin 100, .fin 20, [⟨20, 8⟩]⟩ := by
    norm_num [layoutRow, gridC9, rm9, sim9, u9, Grid.isGutterTrack,
      Reg.isFull, Reg.inLast, Reg.next, checkForRowspans, Grid.cellAt,
      Grid.entry, GEntry.asCell, Grid.effRowspan, Grid.effColspan,
      checkUnbreakable, layoutAutoRow, measureAutoRow, measureAutoRowCell,
      Grid.parentCellPosition, lastSpannedAutoRow, laidOutHeight, groupHeight,
      mergeMax, subtractCoveredFront, subtractEndSizes, isUnbreakableCell,
      cellSpannedWidth, pushRow, XAbs.subQ, XAbs.addQ, List.find?,
      List.filterMap, finishRegion, finishStep, trimTrailingGutter, usedOf,
      frOfRows,
      regionFrameSz, updateRowspan, frShare, LRow.y, XAbs.minQ,
      show List.range 3 = [0, 1, 2] from rfl]
    simp
    norm_num [mergeMax, subtractCoveredFront, subtractEndSizes, XAbs.minQ,
      XAbs.subQ, XAbs.addQ, frShare, updateRowspan, LRow.y]
  have hf : finishRegion gridC9
      ⟨⟨.fin 100, .fin 13, .fin 20, [], some (.fin 20)⟩, [10, 0, 10], 20,
        [[⟨6, 0⟩, ⟨2, 1⟩]], [.frame 7 4], 0,
        [⟨0, 0, 5, 0, some 0, .fin 10, [8]⟩, ⟨2, 2, 3, 0, none, .fin 0, []⟩],
        .fin 100, .fin 20, [⟨20, 8⟩]⟩ =
      ⟨⟨.fin 100, .fin 20, .fin 20, [], some (.fin 20)⟩, [10, 0, 10], 20,
        [[⟨6, 0⟩, ⟨2, 1⟩], [⟨7, 4⟩]], [], 0,
        [⟨0, 0, 5, 0, some 0, .fin 10, [8, 7]⟩,
          ⟨2, 2, 3, 0, some 1, .fin 20, [7]⟩],
        .fin 100, .fin 20, [⟨20, 8⟩, ⟨20, 7⟩]⟩ := by
    norm_num [finishRegion, finishStep, gridC9, trimTrailingGutter, Grid.isGutterTrack,
      usedOf, frOfRows, regionFrameSz, updateRowspan, frShare, LRow.y,
      XAbs.subQ, XAbs.minQ, Reg.next]
  have hall : layoutGrid gridC9 cm9 rm9 sim9 u9 reg9 (.fin 10) =
      ⟨⟨.fin 100, .fin 20, .fin 20, [], some (.fin 20)⟩, [10, 0, 10], 20,
        [[⟨6, 0⟩, ⟨2, 1⟩], [⟨7, 4⟩]], [], 0,
        [⟨0, 0, 5, 0, some 0, .fin 10, [8, 7]⟩,
          ⟨2, 2, 3, 0, some 1, .fin 20, [7]⟩],
        .fin 100, .fin 20, [⟨20, 8⟩, ⟨20, 7⟩]⟩ := by
    simp only [layoutGrid, hmc,
      show reg9.sizeX = XAbs.fin 100 from rfl,
      show reg9.sizeY = XAbs.fin 10 from rfl,
      show List.range gridC9.rows.length = [0, 1, 2, 3, 4] from rfl,
      List.foldl_cons, List.foldl_nil, h0, h1, h2, h3, h4, hf]
  exact ⟨by rw [hall], by rw [hall]; rfl, rfl⟩

/-- A list of recorded row pieces does not begin with a gutter row. -/
def rowsHeadOk (g : Grid) : List RowPiece → Bool
  | [] => true
  | p :: _ => !g.isGutterTrack p.y

/-- A region under construction does not begin with a gutter row. -/
def lrowsHeadOk (g : Grid) : List LRow → Bool
  | [] => true
  | r :: _ => !g.isGutterTrack r.y

/-- The layouter invariant: neither the rows placed in the current
region nor those of any finished region begin with a gutter row. -/
def NoLeadingGutter (g : Grid) (st : LS) : Prop :=
  lrowsHeadOk g st.lrows = true ∧ ∀ l ∈ st.rrows, rowsHeadOk g l = true

/-- The row pieces recorded by the `finish_region` fold carry exactly
the track indices of the folded rows, in order. -/
theorem finishStep_pieces_y (cr : ℕ) (full : XAbs) (frTot : ℚ) (rem : XAbs)
    (rows : List LRow) :
    ∀ a : List RSpan × ℚ × List RowPiece,
      ((rows.foldl (finishStep cr full frTot rem) a).2.2).map RowPiece.y =
        a.2.2.map RowPiece.y ++ rows.map LRow.y := by
  induction rows with
  | nil => intro a; simp
  | cons r t ih =>
      intro a
      rw [List.foldl_cons, ih]
      simp [finishStep]

/-- `finish_region` appends one region of row pieces to `rrows`,
namely the fold over the trimmed current rows. -/
theorem finishRegion_rrows (g : Grid) (st : LS) :
    (finishRegion g st).rrows =
      st.rrows ++ [(((trimTrailingGutter g st.lrows).foldl
        (finishStep st.finished.length st.regions.full
          (frOfRows (trimTrailingGutter g st.lrows))
          (st.regions.full.subQ (usedOf (trimTrailingGutter g st.lrows))))
        (st.rowspans, (0 : ℚ), ([] : List RowPiece))).2.2)] := rfl

/-- The track indices recorded for a finished region are exactly those
of the current rows after the trailing-gutter trim. -/
theorem finishRegion_pieces (g : Grid) (st : LS) :
    (finishRegion g st).rrows.map (List.map RowPiece.y) =
      st.rrows.map (List.map RowPiece.y) ++
        [(trimTrailingGutter g st.lrows).map LRow.y] := by
  rw [finishRegion_rrows]
  simp [finishStep_pieces_y]

/-- Transport head-of-region well-formedness along an equality of
track-index lists. -/
theorem rowsHeadOk_of_map_y (g : Grid) (l : List RowPiece)
    (rows : List LRow) (h : l.map RowPiece.y = rows.map LRow.y)
    (hr : lrowsHeadOk g rows = true) : rowsHeadOk g l = true := by
  cases l with
  | nil => rfl
  | cons p t =>
      cases rows with
      | nil => simp at h
      | cons r rt =>
          simp only [List.map_cons, List.cons.injEq] at h
          simpa [rowsHeadOk, lrowsHeadOk, h.1] using hr

/-- Trimming the trailing gutter row preserves the head of the
region. -/
theorem trim_headOk (g : Grid) (l : List LRow)
    (h : lrowsHeadOk g l = true) :
    lrowsHeadOk g (trimTrailingGutter g l) = true := by
  cases l with
  | nil => rfl
  | cons r t =>
      simp only [trimTrailingGutter]
      cases hgl : (r :: t).getLast? with
      | none => exact h
      | some last =>
          by_cases hg : g.isGutterTrack last.y = true
          · simp only [if_pos hg]
            cases t with
            | nil => rfl
            | cons b bt => simpa [lrowsHeadOk, List.dropLast] using h
          · simp only [if_neg hg]; exact h

/-- `finish_region` preserves the invariant: the new region's pieces
head the trimmed rows, and the current region becomes empty. -/
theorem finishRegion_inv (g : Grid) (st : LS)
    (h : NoLeadingGutter g st) : NoLeadingGutter g (finishRegion g st) := by
  refine ⟨rfl, ?_⟩
  intro l hl
  rw [finishRegion_rrows] at hl
  rcases List.mem_append.mp hl with hmem | hmem
  · exact h.2 l hmem
  · rcases List.mem_singleton.mp hmem with rfl
    refine rowsHeadOk_of_map_y g _ (trimTrailingGutter g st.lrows) ?_
      (trim_headOk g st.lrows h.1)
    simpa using finishStep_pieces_y st.finished.length st.regions.full
      (frOfRows (trimTrailingGutter g st.lrows))
      (st.regions.full.subQ (usedOf (trimTrailingGutter g st.lrows)))
      (trimTrailingGutter g st.lrows)
      (st.rowspans, (0 : ℚ), ([] : List RowPiece))

/-- Appending a row keeps the head well-formed provided a row appended
to an empty region is not a gutter row. -/
theorem lrows_append_inv (g : Grid) (l : List LRow) (r : LRow)
    (h1 : lrowsHeadOk g l = true)
    (h2 : l = [] → g.isGutterTrack r.y = false) :
    lrowsHeadOk g (l ++ [r]) = true := by
  cases l with
  | nil => simp [lrowsHeadOk, h2 rfl]
  | cons a t => simpa [lrowsHeadOk] using h1

/-- `push_row` preserves the invariant when it never starts a region
with a gutter row. -/
theorem pushRow_inv (g : Grid) (st : LS) (h : ℚ) (y : ℕ)
    (hinv : NoLeadingGutter g st)
    (hy : st.lrows = [] → g.isGutterTrack y = false) :
    NoLeadingGutter g (pushRow st h y) :=
  ⟨lrows_append_inv g st.lrows (.frame h y) hinv.1 hy, hinv.2⟩

/-- The region-skipping loop of a relative row preserves the
invariant: it pushes the row, possibly after finishing regions, and a
gutter row is only pushed into a nonempty region. -/
theorem relRowLoop_inv (g : Grid) (y : ℕ) (hgt : ℚ) :
    ∀ (fuel : ℕ) (st : LS), NoLeadingGutter g st →
      (g.isGutterTrack y = true → st.lrows ≠ []) →
      NoLeadingGutter g (relRowLoop g st y hgt fuel) := by
  intro fuel
  induction fuel with
  | zero =>
      intro st hinv hy
      exact pushRow_inv g st hgt y hinv
        (fun he => Bool.eq_false_iff.mpr (fun hg => hy hg he))
  | succ n ih =>
      intro st hinv hy
      rw [relRowLoop]
      by_cases hc : st.unbreakableRowsLeft = 0 ∧
          st.regions.sizeY.fits hgt = false ∧ st.regions.inLast = false
      · rw [if_pos hc]
        by_cases hg : g.isGutterTrack y = true
        · simp only [if_pos hg]
          exact finishRegion_inv g st hinv
        · simp only [Bool.eq_false_iff.mpr hg, if_neg]
          exact ih (finishRegion g st) (finishRegion_inv g st hinv)
            (fun hg2 => absurd hg2 hg)
      · rw [if_neg hc]
        exact pushRow_inv g st hgt y hinv
          (fun he => Bool.eq_false_iff.mpr (fun hg => hy hg he))

/-- On a gutter row every grid entry is vacant. -/
theorem entry_gutter_row (g : Grid) (x y : ℕ)
    (h : g.isGutterTrack y = true) : g.entry x y = none := by
  simp only [Grid.isGutterTrack, Bool.and_eq_true, decide_eq_true_eq] at h
  simp [Grid.entry, h.1, h.2]

/-- On a gutter row no position has a parent cell. -/
theorem parent_gutter_row (g : Grid) (x y : ℕ)
    (h : g.isGutterTrack y = true) : g.parentCellPosition x y = none := by
  simp [Grid.parentCellPosition, entry_gutter_row g x y h]

/-- On a gutter row the measuring loop of `measure_auto_row` leaves
its accumulator untouched. -/
theorem measureAutoRowCell_gutter (g : Grid) (rm : RowMeasure) (st : LS)
    (y : ℕ) (cs ub : Bool) (ubl : ℕ) (rg : RowGroup)
    (h : g.isGutterTrack y = true) :
    ∀ (acc : MAR) (x : ℕ),
      measureAutoRowCell g rm st y cs ub ubl rg acc x = acc := by
  intro acc x
  by_cases hs : acc.skip = true
  · simp [measureAutoRowCell, hs]
  · simp [measureAutoRowCell, hs, parent_gutter_row g x y h]

/-- A fold whose step never changes the accumulator computes the
initial accumulator. -/
theorem foldl_skip_all {α β : Type} (f : α → β → α) (l : List β)
    (h : ∀ (a : α) (x : β), f a x = a) : ∀ a : α, l.foldl f a = a := by
  induction l with
  | nil => intro a; rfl
  | cons x t ih => intro a; rw [List.foldl_cons, h, ih]

/-- Measuring an auto gutter row resolves to no heights at all. -/
theorem measureAutoRow_gutter (g : Grid) (rm : RowMeasure) (sim : SimOracle)
    (st : LS) (y : ℕ) (cs ub : Bool) (ubl : ℕ) (rg : RowGroup)
    (h : g.isGutterTrack y = true) :
    measureAutoRow g rm sim st y cs ub ubl rg = some [] := by
  simp only [measureAutoRow,
    foldl_skip_all (measureAutoRowCell g rm st y cs ub ubl rg)
      (List.range st.rcols.length)
      (measureAutoRowCell_gutter g rm st y cs ub ubl rg h)]
  rfl

/-- An auto gutter row lays out nothing. -/
theorem layoutAutoRow_gutter (g : Grid) (rm : RowMeasure) (sim : SimOracle)
    (st : LS) (y : ℕ) (h : g.isGutterTrack y = true) :
    layoutAutoRow g rm sim st y = st := by
  simp only [layoutAutoRow,
    measureAutoRow_gutter g rm sim st y true
      (decide (0 < st.unbreakableRowsLeft)) st.unbreakableRowsLeft ⟨0, []⟩ h]

/-- Pushing the multi-region frames of a content row preserves the
invariant. -/
theorem pushMulti_inv (g : Grid) (y : ℕ)
    (hy : g.isGutterTrack y = false) :
    ∀ (hs : List ℚ) (st : LS), NoLeadingGutter g st →
      NoLeadingGutter g (pushMulti g st y hs) := by
  intro hs
  induction hs with
  | nil => intro st h; exact h
  | cons a t ih =>
      intro st h
      cases t with
      | nil => exact pushRow_inv g st a y h (fun _ => hy)
      | cons b bt =>
          rw [pushMulti]
          exact ih (finishRegion g (pushRow st a y))
            (finishRegion_inv g _ (pushRow_inv g st a y h (fun _ => hy)))

/-- `layout_auto_row` either leaves the state, finishes the region, or
pushes row frames (possibly across regions) onto the state or onto the
state with its region finished. -/
theorem layoutAutoRow_cases (g : Grid) (rm : RowMeasure) (sim : SimOracle)
    (st : LS) (y : ℕ) :
    ∃ st2 : LS, (st2 = st ∨ st2 = finishRegion g st) ∧
      (layoutAutoRow g rm sim st y = st2 ∨
       (∃ h, layoutAutoRow g rm sim st y = pushRow st2 h y) ∨
       (∃ hs, layoutAutoRow g rm sim st y = pushMulti g st2 y hs)) := by
  simp only [layoutAutoRow]
  cases hm : measureAutoRow g rm sim st y true
      (decide (0 < st.unbreakableRowsLeft)) st.unbreakableRowsLeft
      ⟨0, []⟩ with
  | none =>
      dsimp only
      cases hm2 : (measureAutoRow g rm sim (finishRegion g st) y false
          (decide (0 < st.unbreakableRowsLeft))
          (finishRegion g st).unbreakableRowsLeft ⟨0, []⟩).getD [] with
      | nil => exact ⟨finishRegion g st, Or.inr rfl, Or.inl rfl⟩
      | cons a t =>
          cases t with
          | nil =>
              exact ⟨finishRegion g st, Or.inr rfl, Or.inr (Or.inl ⟨a, rfl⟩)⟩
          | cons b bt =>
              exact ⟨finishRegion g st, Or.inr rfl, Or.inr (Or.inr ⟨_, rfl⟩)⟩
  | some r =>
      dsimp only
      cases r with
      | nil => exact ⟨st, Or.inl rfl, Or.inl rfl⟩
      | cons a t =>
          cases t with
          | nil => exact ⟨st, Or.inl rfl, Or.inr (Or.inl ⟨a, rfl⟩)⟩
          | cons b bt => exact ⟨st, Or.inl rfl, Or.inr (Or.inr ⟨_, rfl⟩)⟩

/-- `layout_auto_row` preserves the invariant; an auto gutter row may
only occur above a nonempty region. -/
theorem layoutAutoRow_inv (g : Grid) (rm : RowMeasure) (sim : SimOracle)
    (st : LS) (y : ℕ) (h : NoLeadingGutter g st)
    (hy : g.isGutterTrack y = true → st.lrows ≠ []) :
    NoLeadingGutter g (layoutAutoRow g rm sim st y) := by
  by_cases hgut : g.isGutterTrack y = true
  · rw [layoutAutoRow_gutter g rm sim st y hgut]; exact h
  · have hgf : g.isGutterTrack y = false := Bool.eq_false_iff.mpr hgut
    obtain ⟨st2, hst2, hpath⟩ := layoutAutoRow_cases g rm sim st y
    have hinv2 : NoLeadingGutter g st2 := by
      rcases hst2 with rfl | rfl
      · exact h
      · exact finishRegion_inv g st h
    rcases hpath with he | ⟨hh, he⟩ | ⟨hs, he⟩
    · rw [he]; exact hinv2
    · rw [he]; exact pushRow_inv g st2 hh y hinv2 (fun _ => hgf)
    · rw [he]; exact pushMulti_inv g y hgf hs st2 hinv2

/-- `check_for_rowspans` only touches the rowspan ledger. -/
theorem checkForRowspans_inv (g : Grid) (st : LS) (y : ℕ)
    (h : NoLeadingGutter g st) :
    NoLeadingGutter g (checkForRowspans g st y) := h

/-- The rows of the current region survive `check_for_rowspans`. -/
theorem checkForRowspans_lrows (g : Grid) (st : LS) (y : ℕ) :
    (checkForRowspans g st y).lrows = st.lrows := rfl

/-- On a gutter row `check_for_unbreakable_rows` does nothing. -/
theorem checkUnbreakable_gutter (g : Grid) (u : UnbreakableOracle)
    (st : LS) (y : ℕ) (h : g.isGutterTrack y = true) :
    checkUnbreakable g u st y = st := by
  rw [checkUnbreakable, if_neg]
  intro hc
  rw [h] at hc
  exact absurd hc.2 (by simp)

/-- `check_for_unbreakable_rows` preserves the invariant. -/
theorem checkUnbreakable_inv (g : Grid) (u : UnbreakableOracle) (st : LS)
    (y : ℕ) (h : NoLeadingGutter g st) :
    NoLeadingGutter g (checkUnbreakable g u st y) := by
  rw [checkUnbreakable]
  by_cases hc : st.unbreakableRowsLeft = 0 ∧ g.isGutterTrack y = false
  · rw [if_pos hc]
    by_cases hc2 : (u st y).2 ∧ st.regions.inLast = false
    · simp only [if_pos hc2]
      exact finishRegion_inv g st h
    · simp only [if_neg hc2]
      exact h
  · rw [if_neg hc]
    exact h

/-- The sizing dispatch of the row loop preserves the invariant; a
gutter row is only dispatched above a nonempty region. -/
theorem dispatch_inv (g : Grid) (rm : RowMeasure) (sim : SimOracle)
    (y : ℕ) (st1 : LS) (hinv : NoLeadingGutter g st1)
    (hlr : g.isGutterTrack y = true → st1.lrows ≠ []) :
    NoLeadingGutter g
      (match g.rows.getD y .auto with
       | .auto => layoutAutoRow g rm sim st1 y
       | .rel v => layoutRelativeRow g st1 y v
       | .fr v => { st1 with lrows := st1.lrows ++ [.fr v y] }) := by
  cases hrow : g.rows.getD y .auto with
  | auto => exact layoutAutoRow_inv g rm sim st1 y hinv hlr
  | rel v =>
      simp only [layoutRelativeRow]
      exact relRowLoop_inv g y v _ st1 hinv hlr
  | fr v =>
      refine ⟨lrows_append_inv g st1.lrows (.fr v y) hinv.1 ?_, hinv.2⟩
      intro he
      exact Bool.eq_false_iff.mpr (fun hg => hlr hg he)

/-- One iteration of the row loop preserves the invariant. -/
theorem layoutRow_inv (g : Grid) (rm : RowMeasure) (sim : SimOracle)
    (u : UnbreakableOracle) (st : LS) (y : ℕ)
    (h : NoLeadingGutter g st) :
    NoLeadingGutter g (layoutRow g rm sim u st y) := by
  simp only [layoutRow]
  by_cases hc1 : st.unbreakableRowsLeft = 0 ∧ st.regions.isFull = true ∧
      g.isGutterTrack y = false
  · simp only [if_pos hc1]
    have h1 : NoLeadingGutter g (finishRegion g st) := finishRegion_inv g st h
    by_cases hc2 : (g.isGutterTrack y = false) ∨ (finishRegion g st).lrows ≠ []
    · simp only [if_pos hc2]
      refine dispatch_inv g rm sim y _
        (checkUnbreakable_inv g u _ y (checkForRowspans_inv g _ y h1)) ?_
      intro hg
      exact absurd hc1.2.2 (by rw [hg]; simp)
    · simp only [if_neg hc2]
      exact h1
  · simp only [if_neg hc1]
    by_cases hc2 : (g.isGutterTrack y = false) ∨ st.lrows ≠ []
    · simp only [if_pos hc2]
      refine dispatch_inv g rm sim y _
        (checkUnbreakable_inv g u _ y (checkForRowspans_inv g _ y h)) ?_
      intro hg
      rw [checkUnbreakable_gutter g u _ y hg, checkForRowspans_lrows]
      rcases hc2 with hA | hB
      · rw [hg] at hA; exact absurd hA (by simp)
      · exact hB
    · simp only [if_neg hc2]
      exact h

/-- The whole row loop preserves the invariant. -/
theorem layoutRows_inv (g : Grid) (rm : RowMeasure) (sim : SimOracle)
    (u : UnbreakableOracle) :
    ∀ (ys : List ℕ) (st : LS), NoLeadingGutter g st →
      NoLeadingGutter g (ys.foldl (layoutRow g rm sim u) st) := by
  intro ys
  induction ys with
  | nil => intro st h; exact h
  | cons a t ih =>
      intro st h
      rw [List.foldl_cons]
      exact ih _ (layoutRow_inv g rm sim u st a h)

/-- C9 (amended): a gutter row reached while the current region has no
placed rows is skipped entirely (only the unbreakable counter ticks);
`finish_region` drops one trailing gutter row before recording the
region's rows; and the row sequence of a finished region never begins
with a gutter row.  A finished region can, however, still end with a
gutter row (see the counterexample): only one trailing gutter row is
removed. -/
theorem gutter_row_suppression (g : Grid) (rm : RowMeasure)
    (sim : SimOracle) (u : UnbreakableOracle) (cm : ColMeasure)
    (reg0 : Reg) (baseY : XAbs) :
    (∀ (st : LS) (y : ℕ), g.isGutterTrack y = true → st.lrows = [] →
      layoutRow g rm sim u st y =
        { st with unbreakableRowsLeft := st.unbreakableRowsLeft - 1 }) ∧
    (∀ st : LS, (finishRegion g st).rrows.map (List.map RowPiece.y) =
      st.rrows.map (List.map RowPiece.y) ++
        [(trimTrailingGutter g st.lrows).map LRow.y]) ∧
    (∀ l ∈ (layoutGrid g cm rm sim u reg0 baseY).rrows,
      rowsHeadOk g l = true) := by
  refine ⟨?_, finishRegion_pieces g, ?_⟩
  · intro st y hg hl
    have hcr : ¬ (g.isGutterTrack y = false) := by simp [hg]
    simp only [layoutRow]
    rw [if_neg (show ¬ (st.unbreakableRowsLeft = 0 ∧
        st.regions.isFull = true ∧ g.isGutterTrack y = false) from
        fun hc => hcr hc.2.2),
      if_neg (show ¬ ((g.isGutterTrack y = false) ∨ st.lrows ≠ []) from
        fun hc => hc.elim hcr (fun h2 => h2 hl))]
  · intro l hl
    simp only [layoutGrid] at hl
    have h0 : NoLeadingGutter g
        ⟨reg0, (measureColumns g cm reg0.sizeX baseY).1,
          (measureColumns g cm reg0.sizeX baseY).2, [], [], 0, [],
          reg0.sizeX, reg0.sizeY, []⟩ :=
      ⟨rfl, fun l2 hl2 => absurd hl2 (List.not_mem_nil l2)⟩
    exact (finishRegion_inv g _ (layoutRows_inv g rm sim u
      (List.range g.rows.length) _ h0)).2 l hl

/-- C9 witness: the amended rules applied to the counterexample grid
at concrete states. -/
theorem gutter_row_suppression_check :
    (layoutRow gridC9 rm9 sim9 u9
      ⟨reg9, [10, 0, 10], 20, [], [], 0, [], .fin 100, .fin 10, []⟩ 1 =
      { (⟨reg9, [10, 0, 10], 20, [], [], 0, [], .fin 100, .fin 10, []⟩ : LS)
        with unbreakableRowsLeft := 0 - 1 }) ∧
    ((finishRegion gridC9
        ⟨reg9, [10, 0, 10], 20, [], [.frame 6 0, .frame 2 1], 0, [],
          .fin 100, .fin 10, []⟩).rrows.map (List.map RowPiece.y) =
      [].map (List.map RowPiece.y) ++
        [(trimTrailingGutter gridC9 [.frame 6 0, .frame 2 1]).map LRow.y]) ∧
    (∀ l ∈ (layoutGrid gridC9 cm9 rm9 sim9 u9 reg9 (.fin 10)).rrows,
      rowsHeadOk gridC9 l = true) :=
  ⟨(gutter_row_suppression gridC9 rm9 sim9 u9 cm9 reg9 (.fin 10)).1
      ⟨reg9, [10, 0, 10], 20, [], [], 0, [], .fin 100, .fin 10, []⟩ 1
      (by decide) rfl,
   (gutter_row_suppression gridC9 rm9 sim9 u9 cm9 reg9 (.fin 10)).2.1
      ⟨reg9, [10, 0, 10], 20, [], [.frame 6 0, .frame 2 1], 0, [],
        .fin 100, .fin 10, []⟩,
   (gutter_row_suppression gridC9 rm9 sim9 u9 cm9 reg9 (.fin 10)).2.2⟩
